import Mathlib

/-!
Verification of the astrological-calculation core of the `sweph` repository.

The JavaScript source is shallowly embedded: ecliptic longitudes and speeds
are rationals, JS `Math.floor`/`Math.trunc`/`%` are modelled exactly
(JS `%` truncates toward zero), table dates are UTC epoch day numbers and
timestamps are epoch milliseconds, and every function that can return an
`{available:false}` object is modelled with an explicit sum type.
-/

namespace Sweph

/-! ## JS numeric primitives -/

/-- JS `Math.trunc` on an exact (rational) number: round toward zero. -/
def jsTrunc (x : ℚ) : ℤ := if 0 ≤ x then ⌊x⌋ else ⌈x⌉

/-- JS remainder `x % y` on exact numbers: `x - y * trunc (x / y)`
(the result has the sign of the dividend). -/
def jsMod (x y : ℚ) : ℚ := x - y * (jsTrunc (x / y) : ℚ)

/-- The normalisation idiom `((x % 360) + 360) % 360` used throughout the
source to bring a longitude into `[0, 360)`. -/
def normalize360 (x : ℚ) : ℚ := jsMod (jsMod x 360 + 360) 360

theorem jsTrunc_of_nonneg {x : ℚ} (h : 0 ≤ x) : jsTrunc x = ⌊x⌋ := by
  simp [jsTrunc, h]

theorem jsMod_of_nonneg {x y : ℚ} (hx : 0 ≤ x) (hy : 0 < y) :
    jsMod x y = x - y * ⌊x / y⌋ := by
  have : 0 ≤ x / y := div_nonneg hx hy.le
  simp [jsMod, jsTrunc, this]

theorem jsMod_nonneg_lt {y d : ℚ} (hy : 0 ≤ y) (hd : 0 < d) :
    0 ≤ jsMod y d ∧ jsMod y d < d := by
  rw [jsMod_of_nonneg hy hd]
  constructor
  · have h := Int.floor_le (y / d)
    rw [le_div_iff hd] at h
    linarith
  · have h := Int.lt_floor_add_one (y / d)
    rw [div_lt_iff hd] at h
    push_cast at h
    nlinarith

/-- Any representative `x - 360 m` lying in `[0, 360)` is the floor-mod. -/
theorem floorMod_unique {x r : ℚ} (m : ℤ) (h : r = x - 360 * m)
    (h0 : 0 ≤ r) (h1 : r < 360) : r = x - 360 * ⌊x / 360⌋ := by
  have hm : ⌊x / 360⌋ = m := by
    rw [Int.floor_eq_iff]
    constructor
    · rw [le_div_iff (by norm_num : (0:ℚ) < 360)]
      linarith
    · rw [div_lt_iff (by norm_num : (0:ℚ) < 360)]
      push_cast
      linarith
  rw [hm, h]

/-- The double-`%` idiom computes the mathematical floor-mod:
`normalize360 x = x - 360 * ⌊x / 360⌋`. -/
theorem normalize360_eq (x : ℚ) : normalize360 x = x - 360 * ⌊x / 360⌋ := by
  obtain ⟨m, hm, hlo, hhi⟩ :
      ∃ m : ℤ, jsMod x 360 = x - 360 * m ∧
        -360 < x - 360 * (m:ℚ) ∧ x - 360 * (m:ℚ) < 360 := by
    rcases le_or_lt 0 x with hx | hx
    · obtain ⟨h0, h1⟩ := jsMod_nonneg_lt hx (by norm_num : (0:ℚ) < 360)
      exact ⟨⌊x / 360⌋, jsMod_of_nonneg hx (by norm_num),
        by rw [← jsMod_of_nonneg hx (by norm_num)]; linarith,
        by rw [← jsMod_of_nonneg hx (by norm_num)]; linarith⟩
    · have hdiv : x / 360 < 0 := div_neg_of_neg_of_pos hx (by norm_num)
      refine ⟨⌈x / 360⌉, by simp [jsMod, jsTrunc, not_le.mpr hdiv], ?_, ?_⟩
      · have h := Int.ceil_lt_add_one (x / 360)
        have h' : 360 * (⌈x / 360⌉ : ℚ) < 360 * (x / 360 + 1) :=
          mul_lt_mul_of_pos_left h (by norm_num)
        have h'' : (360:ℚ) * (x / 360 + 1) = x + 360 := by ring
        linarith
      · have h := Int.le_ceil (x / 360)
        have h' : 360 * (x / 360) ≤ 360 * (⌈x / 360⌉ : ℚ) :=
          mul_le_mul_of_nonneg_left h (by norm_num)
        have h'' : (360:ℚ) * (x / 360) = x := by ring
        linarith
  have houter : normalize360 x =
      (jsMod x 360 + 360) - 360 * ⌊(jsMod x 360 + 360) / 360⌋ := by
    rw [normalize360]
    exact jsMod_of_nonneg (by rw [hm]; linarith) (by norm_num)
  obtain ⟨h0, h1⟩ := @jsMod_nonneg_lt (jsMod x 360 + 360) 360
    (by rw [hm]; linarith) (by norm_num : (0:ℚ) < 360)
  rw [jsMod_of_nonneg (by rw [hm]; linarith) (by norm_num)] at h0 h1
  exact floorMod_unique (m - 1 + ⌊(jsMod x 360 + 360) / 360⌋)
    (by rw [houter, hm]; push_cast; ring) (by rw [houter]; linarith)
    (by rw [houter]; linarith)

theorem normalize360_nonneg (x : ℚ) : 0 ≤ normalize360 x := by
  rw [normalize360_eq]
  have := Int.floor_le (x / 360)
  have h : (⌊x / 360⌋ : ℚ) * 360 ≤ x := by
    rw [mul_comm]
    calc (360:ℚ) * ⌊x / 360⌋ ≤ 360 * (x / 360) := by
          apply mul_le_mul_of_nonneg_left this (by norm_num)
      _ = x := by ring
  linarith

theorem normalize360_lt (x : ℚ) : normalize360 x < 360 := by
  rw [normalize360_eq]
  have := Int.lt_floor_add_one (x / 360)
  have h : x < (⌊x / 360⌋ : ℚ) * 360 + 360 := by
    have h2 : 360 * (x / 360) < 360 * ((⌊x / 360⌋ : ℚ) + 1) := by
      apply mul_lt_mul_of_pos_left this (by norm_num)
    have h3 : (360:ℚ) * (x / 360) = x := by ring
    linarith
  linarith

theorem normalize360_add_360 (x : ℚ) : normalize360 (x + 360) = normalize360 x := by
  rw [normalize360_eq, normalize360_eq]
  have h : (x + 360) / 360 = x / 360 + 1 := by ring
  rw [h, Int.floor_add_one]
  push_cast; ring

theorem normalize360_eq_self {x : ℚ} (h0 : 0 ≤ x) (h1 : x < 360) :
    normalize360 x = x := by
  rw [normalize360_eq]
  have : ⌊x / 360⌋ = 0 := by
    rw [Int.floor_eq_iff]
    constructor
    · push_cast
      exact div_nonneg h0 (by norm_num)
    · push_cast
      rw [div_lt_iff (by norm_num : (0:ℚ) < 360)]
      linarith
  rw [this]
  push_cast
  ring

/-! ## Zodiac sign derivation

Two distinct implementations exist in the source: `getZodiacSign` in
`src/api/services/calculator.js` (which normalises its argument first) and
`getZodiacSign` in `src/api/services/ikigai.js` (which does not). -/

/-- The `ZODIAC_SIGNS` array, identical in both files. -/
def ZODIAC_SIGNS : List String :=
  ["Aries", "Taurus", "Gemini", "Cancer", "Leo", "Virgo",
   "Libra", "Scorpio", "Sagittarius", "Capricorn", "Aquarius", "Pisces"]

/-- Result shape of `calculator.js`'s `getZodiacSign`. -/
structure ZodiacPos where
  sign : String
  degrees : ℤ
  minutes : ℤ
  longitude : ℚ
  deriving DecidableEq, Repr

/-- The `getZodiacSign(longitude)` from `src/api/services/calculator.js` lines 33-45:
normalises to `[0,360)`, then `signIndex = Math.floor(normalizedLng / 30)`. -/
def getZodiacSign (longitude : ℚ) : ZodiacPos :=
  let normalizedLng := normalize360 longitude
  let signIndex : ℤ := ⌊normalizedLng / 30⌋
  let degreesInSign := jsMod normalizedLng 30
  { sign := ZODIAC_SIGNS.getD signIndex.toNat ""
    degrees := ⌊degreesInSign⌋
    minutes := ⌊jsMod degreesInSign 1 * 60⌋
    longitude := normalizedLng }

/-- The `getZodiacSign(longitude)` from `src/api/services/ikigai.js` lines 1091-1099:
`signs[Math.floor(longitude / 30) % 12]` with NO prior normalisation.
JS `%` truncates toward zero, and indexing a JS array with a negative
number yields `undefined`, modelled here as `none`. -/
def getZodiacSignIkigai (longitude : ℚ) : Option String :=
  if 0 ≤ Int.tmod ⌊longitude / 30⌋ 12 then
    ZODIAC_SIGNS.get? (Int.tmod ⌊longitude / 30⌋ 12).toNat
  else none

theorem getZodiacSign_add_360 (L : ℚ) : getZodiacSign (L + 360) = getZodiacSign L := by
  unfold getZodiacSign
  rw [normalize360_add_360]

theorem getZodiacSignIkigai_add_360 {L : ℚ} (hL : 0 ≤ L) :
    getZodiacSignIkigai (L + 360) = getZodiacSignIkigai L := by
  unfold getZodiacSignIkigai
  have hdiv : (L + 360) / 30 = L / 30 + 12 := by ring
  have hfl : ⌊(L + 360) / 30⌋ = ⌊L / 30⌋ + 12 := by
    rw [hdiv]
    exact_mod_cast Int.floor_add_int (L / 30) 12
  have hLfl : 0 ≤ ⌊L / 30⌋ := Int.floor_nonneg.mpr (by positivity)
  have htm : Int.tmod (⌊L / 30⌋ + 12) 12 = Int.tmod ⌊L / 30⌋ 12 := by
    rw [Int.tmod_eq_emod (by omega) (by omega), Int.tmod_eq_emod hLfl (by omega)]
    omega
  rw [hfl, htm]

/-! ## House assignment (`getHouseForPlanet`, `src/api/services/ikigai.js` 65-86) -/

/-- The body of the `for` loop in `getHouseForPlanet`: the wrap-around
point-in-sector test for house `i+1`, with cusps `houseCusps[i]` and
`houseCusps[(i+1) % 12]`. -/
def inSectorB (lng : ℚ) (houseCusps : Fin 12 → ℚ) (i : Fin 12) : Bool :=
  if houseCusps (i + 1) < houseCusps i then
    decide (houseCusps i ≤ lng) || decide (lng < houseCusps (i + 1))
  else
    decide (houseCusps i ≤ lng) && decide (lng < houseCusps (i + 1))

/-- The `getHouseForPlanet(planetLongitude, houseCusps)`: normalise the longitude,
scan houses 1..12 in order, return the first whose sector contains it,
defaulting to house 1. -/
def getHouseForPlanet (planetLongitude : ℚ) (houseCusps : Fin 12 → ℚ) : ℕ :=
  match (List.finRange 12).find?
      (fun i => inSectorB (normalize360 planetLongitude) houseCusps i) with
  | some i => i.val + 1
  | none => 1

theorem getHouseForPlanet_mem (L : ℚ) (cusps : Fin 12 → ℚ) :
    1 ≤ getHouseForPlanet L cusps ∧ getHouseForPlanet L cusps ≤ 12 := by
  unfold getHouseForPlanet
  rcases hfind : (List.finRange 12).find?
      (fun i => inSectorB (normalize360 L) cusps i) with _ | i
  · simp
  · have := i.isLt
    simp only []
    omega

/-- Helper: a `Fin 12` successor below the wrap point. -/
theorem fin12_add_one_val {j : Fin 12} (h : j.val < 11) :
    (j + 1 : Fin 12) = ⟨j.val + 1, by omega⟩ := by
  apply Fin.ext
  simp [Fin.val_add]
  omega

/-- Core geometry: if `e 0 < e 1 < ... < e 11`, the twelve wrap-around
sectors `[e j, e (j+1))` (the final one wrapping) partition the line:
every longitude lies in exactly one sector. -/
theorem existsUnique_sector_of_strictMono (e : Fin 12 → ℚ)
    (hsm : StrictMono e) (lng : ℚ) :
    ∃! j : Fin 12, inSectorB lng e j = true := by
  have hmono : ∀ j1 j2 : Fin 12, j1 ≤ j2 → e j1 ≤ e j2 := fun _ _ h => hsm.le_iff_le.mpr h
  have hwrap11 : ((11 : Fin 12) + 1) = 0 := by decide
  have hlt011 : e 0 < e 11 := hsm (by decide : (0 : Fin 12) < 11)
  have hnormal : ∀ j : Fin 12, j.val < 11 →
      inSectorB lng e j = (decide (e j ≤ lng) && decide (lng < e (j + 1))) := by
    intro j hj
    have hstep : e j < e (j + 1) := by
      apply hsm
      rw [fin12_add_one_val hj, Fin.lt_def]
      exact Nat.lt_succ_self _
    unfold inSectorB
    rw [if_neg (not_lt.mpr hstep.le)]
  have hsector11 : inSectorB lng e 11 = (decide (e 11 ≤ lng) || decide (lng < e 0)) := by
    unfold inSectorB
    rw [hwrap11, if_pos hlt011]
  by_cases hcase : e 0 ≤ lng ∧ lng < e 11
  · -- interior: take the largest j with e j ≤ lng
    obtain ⟨hge, hlt⟩ := hcase
    have hSne : (Finset.univ.filter (fun j : Fin 12 => e j ≤ lng)).Nonempty :=
      ⟨0, by simp [hge]⟩
    obtain ⟨j0, hj0mem', hj0max'⟩ :
        ∃ j0 ∈ Finset.univ.filter (fun j : Fin 12 => e j ≤ lng),
          ∀ j ∈ Finset.univ.filter (fun j : Fin 12 => e j ≤ lng), j ≤ j0 :=
      ⟨_, Finset.max'_mem _ hSne, fun j hj => Finset.le_max' _ j hj⟩
    have hj0mem : e j0 ≤ lng := by simpa using hj0mem'
    have hj0max : ∀ j : Fin 12, e j ≤ lng → j ≤ j0 := fun j hj =>
      hj0max' j (by simpa using hj)
    have hj0lt : j0.val < 11 := by
      rcases Nat.lt_or_ge j0.val 11 with h | h
      · exact h
      · exfalso
        have hj011 : j0 = 11 := by
          apply Fin.ext
          have := j0.isLt
          omega
        rw [hj011] at hj0mem
        exact absurd hj0mem (not_le.mpr hlt)
    have hnext : lng < e (j0 + 1) := by
      by_contra hcon
      push_neg at hcon
      have h1 := hj0max _ hcon
      rw [Fin.le_def, fin12_add_one_val hj0lt] at h1
      simp at h1
    refine ⟨j0, ?_, ?_⟩
    · show inSectorB lng e j0 = true
      rw [hnormal j0 hj0lt]
      simp [hj0mem, hnext]
    · intro j' hj'raw
      have hj' : inSectorB lng e j' = true := hj'raw
      have hj'ne11 : j'.val < 11 := by
        rcases Nat.lt_or_ge j'.val 11 with h | h
        · exact h
        · exfalso
          have hj'11 : j' = 11 := by
            apply Fin.ext
            have := j'.isLt
            omega
          rw [hj'11, hsector11] at hj'
          simp only [Bool.or_eq_true, decide_eq_true_eq] at hj'
          rcases hj' with h | h
          · exact absurd h (not_le.mpr hlt)
          · exact absurd h (not_lt.mpr hge)
      rw [hnormal j' hj'ne11] at hj'
      simp only [Bool.and_eq_true, decide_eq_true_eq] at hj'
      obtain ⟨hj'le, hj'lt⟩ := hj'
      have hle : j' ≤ j0 := hj0max _ hj'le
      rcases eq_or_lt_of_le hle with h | h
      · exact h
      · exfalso
        -- j' < j0 : then j' + 1 ≤ j0, so e (j'+1) ≤ e j0 ≤ lng, contradiction
        have hsucc : (j' + 1 : Fin 12) ≤ j0 := by
          rw [Fin.le_def, fin12_add_one_val hj'ne11]
          have : j'.val < j0.val := h
          simpa using this
        have := le_trans (hmono _ _ hsucc) hj0mem
        exact absurd this (not_le.mpr hj'lt)
  · -- exterior: wrap sector 11 catches everything
    have hout : lng < e 0 ∨ e 11 ≤ lng := by
      rcases le_or_lt (e 0) lng with h | h
      · right
        by_contra hcon
        push_neg at hcon
        exact hcase ⟨h, hcon⟩
      · left
        exact h
    refine ⟨11, ?_, ?_⟩
    · show inSectorB lng e 11 = true
      rw [hsector11]
      rcases hout with h | h
      · simp [h]
      · simp [h]
    · intro j' hj'raw
      have hj' : inSectorB lng e j' = true := hj'raw
      by_contra hne
      have hj'lt : j'.val < 11 := by
        rcases Nat.lt_or_ge j'.val 11 with h | h
        · exact h
        · exfalso
          apply hne
          apply Fin.ext
          have := j'.isLt
          omega
      rw [hnormal j' hj'lt] at hj'
      simp only [Bool.and_eq_true, decide_eq_true_eq] at hj'
      obtain ⟨hj'le, hj'lt2⟩ := hj'
      have h0le : e 0 ≤ e j' := hmono _ _ (Fin.zero_le _)
      have hsucle : e (j' + 1) ≤ e 11 := by
        apply hmono
        rw [Fin.le_def, fin12_add_one_val hj'lt]
        simp
        omega
      rcases hout with h | h
      · exact absurd (le_trans h0le hj'le) (not_le.mpr h)
      · exact absurd (lt_of_le_of_lt h (lt_of_lt_of_le hj'lt2 hsucle)) (lt_irrefl _)

/-- Rotation transfer: cusp arrays as produced by the house computation
(twelve longitudes in circular ascending order, descending only across the
single wrap at index `k`) admit exactly one containing sector for any
longitude. -/
theorem existsUnique_sector (cusps : Fin 12 → ℚ) (k : Fin 12)
    (hk : cusps (k + 1) < cusps k)
    (hmono : ∀ i : Fin 12, i ≠ k → cusps i < cusps (i + 1)) (lng : ℚ) :
    ∃! i : Fin 12, inSectorB lng cusps i = true := by
  have hsm : StrictMono (fun j : Fin 12 => cusps (k + 1 + j)) := by
    rw [Fin.strictMono_iff_lt_succ]
    intro i
    have hsuccc : (i.succ : Fin 12) = i.castSucc + 1 := by
      apply Fin.ext
      rw [Fin.val_add]
      have := i.isLt
      simp [Fin.val_succ]
      omega
    have hne : k + 1 + i.castSucc ≠ k := by
      intro h
      rw [add_assoc] at h
      nth_rewrite 2 [show k = k + 0 by rw [add_zero]] at h
      have h2 := add_left_cancel h
      have h3 := congrArg Fin.val h2
      rw [Fin.val_add] at h3
      have := i.isLt
      simp at h3
      omega
    have := hmono (k + 1 + i.castSucc) hne
    show cusps (k + 1 + i.castSucc) < cusps (k + 1 + i.succ)
    rw [hsuccc, ← add_assoc]
    exact this
  obtain ⟨j0, hj0, huniq⟩ := existsUnique_sector_of_strictMono _ hsm lng
  have htrans : ∀ j : Fin 12, inSectorB lng cusps (k + 1 + j) =
      inSectorB lng (fun j' : Fin 12 => cusps (k + 1 + j')) j := by
    intro j
    have h1 : (k + 1 + j) + 1 = k + 1 + (j + 1) := by rw [add_assoc]
    unfold inSectorB
    simp only []
    rw [h1]
  refine ⟨k + 1 + j0, ?_, ?_⟩
  · show inSectorB lng cusps (k + 1 + j0) = true
    rw [htrans]
    exact hj0
  · intro i hiraw
    have hi : inSectorB lng cusps i = true := hiraw
    have hcancel : k + 1 + (i - (k + 1)) = i := by
      rw [add_comm (k + 1), sub_add_cancel]
    have hi' : inSectorB lng cusps (k + 1 + (i - (k + 1))) = true := by
      rw [hcancel]
      exact hi
    rw [htrans] at hi'
    have := huniq _ hi'
    rw [← hcancel, this]

/-- If some sector contains the (normalised) longitude and sectors are
unique, `getHouseForPlanet` returns precisely that sector's house. -/
theorem getHouseForPlanet_eq_of_inSector (cusps : Fin 12 → ℚ) (k : Fin 12)
    (hk : cusps (k + 1) < cusps k)
    (hmono : ∀ i : Fin 12, i ≠ k → cusps i < cusps (i + 1))
    (L : ℚ) (i : Fin 12) (hi : inSectorB (normalize360 L) cusps i = true) :
    getHouseForPlanet L cusps = i.val + 1 := by
  obtain ⟨i0, hi0, huniq⟩ := existsUnique_sector cusps k hk hmono (normalize360 L)
  have hsome : ((List.finRange 12).find?
      (fun j => inSectorB (normalize360 L) cusps j)).isSome := by
    rw [List.find?_isSome]
    exact ⟨i0, List.mem_finRange _, hi0⟩
  obtain ⟨ifound, hfind⟩ := Option.isSome_iff_exists.mp hsome
  have hpfound : inSectorB (normalize360 L) cusps ifound = true :=
    List.find?_some hfind
  have h1 : ifound = i0 := huniq _ hpfound
  have h2 : i = i0 := huniq _ hi
  unfold getHouseForPlanet
  rw [hfind, h1, ← h2]

/-- A cusp longitude (already in `[0,360)`) lies in the sector it opens. -/
theorem inSectorB_self (cusps : Fin 12 → ℚ) (k : Fin 12)
    (hk : cusps (k + 1) < cusps k)
    (hmono : ∀ i : Fin 12, i ≠ k → cusps i < cusps (i + 1)) (i : Fin 12) :
    inSectorB (cusps i) cusps i = true := by
  unfold inSectorB
  by_cases hc : cusps (i + 1) < cusps i
  · rw [if_pos hc]
    simp
  · rw [if_neg hc]
    have hik : i ≠ k := by
      intro h
      rw [h] at hc
      exact hc hk
    have := hmono i hik
    simp [this]

/-- C1: for every longitude `L` and every twelve-cusp array as produced by
the house computation (twelve cusp longitudes in circularly ascending order:
strictly ascending at every adjacent index except the single wrap `k`),
`getHouseForPlanet` returns a house number in `[1,12]`; exactly one
wrap-around sector `[cusp i, cusp (i+1))` contains the normalised `L`
(no gaps, no overlaps); the returned house is exactly that sector's house;
and a cusp longitude itself belongs to the house it opens. -/
theorem getHouseForPlanet_partition (cusps : Fin 12 → ℚ) (k : Fin 12)
    (hk : cusps (k + 1) < cusps k)
    (hmono : ∀ i : Fin 12, i ≠ k → cusps i < cusps (i + 1)) (L : ℚ) :
    (1 ≤ getHouseForPlanet L cusps ∧ getHouseForPlanet L cusps ≤ 12) ∧
    (∃! i : Fin 12, inSectorB (normalize360 L) cusps i = true) ∧
    (∀ i : Fin 12, inSectorB (normalize360 L) cusps i = true →
      getHouseForPlanet L cusps = i.val + 1) ∧
    (∀ i : Fin 12, 0 ≤ cusps i → cusps i < 360 →
      getHouseForPlanet (cusps i) cusps = i.val + 1) := by
  refine ⟨getHouseForPlanet_mem L cusps,
    existsUnique_sector cusps k hk hmono (normalize360 L),
    fun i hi => getHouseForPlanet_eq_of_inSector cusps k hk hmono L i hi,
    fun i h0 h1 => ?_⟩
  apply getHouseForPlanet_eq_of_inSector cusps k hk hmono (cusps i) i
  rw [normalize360_eq_self h0 h1]
  exact inSectorB_self cusps k hk hmono i

/-- An equal-house style cusp array used to instantiate `getHouseForPlanet_partition`. -/
def exampleCusps : Fin 12 → ℚ := fun i =>
  [15, 45, 75, 105, 135, 165, 195, 225, 255, 285, 315, 345].getD i.val 0

/-- Witness for C1: the hypotheses hold for a concrete cusp array
(wrap at `k = 11`) and the conclusions evaluate at `L = 100`. -/
theorem getHouseForPlanet_partition_witness :
    (exampleCusps (11 + 1) < exampleCusps 11) ∧
    (∀ i : Fin 12, i ≠ 11 → exampleCusps i < exampleCusps (i + 1)) ∧
    ((1 ≤ getHouseForPlanet 100 exampleCusps ∧ getHouseForPlanet 100 exampleCusps ≤ 12) ∧
     (∃! i : Fin 12, inSectorB (normalize360 100) exampleCusps i = true) ∧
     (∀ i : Fin 12, inSectorB (normalize360 100) exampleCusps i = true →
       getHouseForPlanet 100 exampleCusps = i.val + 1) ∧
     (∀ i : Fin 12, 0 ≤ exampleCusps i → exampleCusps i < 360 →
       getHouseForPlanet (exampleCusps i) exampleCusps = i.val + 1)) :=
  ⟨by decide, by decide,
    getHouseForPlanet_partition exampleCusps 11 (by decide) (by decide) 100⟩

/-- C3 counterexample: the `getZodiacSign` in `ikigai.js` does not normalise
its argument, so for the negative longitude `-10` the derived sign
(`undefined`, as the computed array index is `-1`) differs from the sign
derived for `-10 + 360` (`Pisces`) — refuting "for every real longitude L
(including negative L), the sign derived for L equals the sign derived for
L + 360" for this implementation. -/
theorem getZodiacSignIkigai_wraparound_cex :
    getZodiacSignIkigai (-10) ≠ getZodiacSignIkigai (-10 + 360) := by
  have h1 : ⌊(-10 : ℚ) / 30⌋ = -1 := by norm_num
  have h2 : ⌊((-10 : ℚ) + 360) / 30⌋ = 11 := by norm_num
  unfold getZodiacSignIkigai
  rw [h1, h2]
  decide

/-- C3 (amended): `calculator.js`'s `getZodiacSign` normalises its longitude
into `[0,360)` and takes sign index `⌊longitude/30⌋` (necessarily `< 12`, so
the `mod 12` of the claim is vacuous), hence is invariant under `+360` for
every rational longitude; `ikigai.js`'s `getZodiacSign` skips normalisation
and is invariant under `+360` only for non-negative longitudes. -/
theorem zodiacSign_wraparound_amended :
    (∀ L : ℚ, getZodiacSign (L + 360) = getZodiacSign L) ∧
    (∀ L : ℚ, 0 ≤ (getZodiacSign L).longitude ∧ (getZodiacSign L).longitude < 360 ∧
      (getZodiacSign L).sign =
        ZODIAC_SIGNS.getD (⌊(getZodiacSign L).longitude / 30⌋).toNat "" ∧
      (⌊(getZodiacSign L).longitude / 30⌋).toNat < 12) ∧
    (∀ L : ℚ, 0 ≤ L → getZodiacSignIkigai (L + 360) = getZodiacSignIkigai L) := by
  refine ⟨getZodiacSign_add_360, fun L => ?_, fun L hL => getZodiacSignIkigai_add_360 hL⟩
  have hlng : (getZodiacSign L).longitude = normalize360 L := rfl
  have hsign : (getZodiacSign L).sign =
      ZODIAC_SIGNS.getD (⌊normalize360 L / 30⌋).toNat "" := rfl
  refine ⟨hlng ▸ normalize360_nonneg L, hlng ▸ normalize360_lt L, by rw [hsign, hlng], ?_⟩
  rw [hlng]
  have h1 : normalize360 L / 30 < 12 := by
    rw [div_lt_iff (by norm_num : (0:ℚ) < 30)]
    linarith [normalize360_lt L]
  have h2 : ⌊normalize360 L / 30⌋ < 12 := Int.floor_lt.mpr (by exact_mod_cast h1)
  omega

/-- Witness for C3 (amended): the `0 ≤ L` hypothesis of the `ikigai.js`
conjunct holds at `L = 30`. -/
theorem zodiacSign_wraparound_amended_witness :
    ((0:ℚ) ≤ 30) ∧ getZodiacSignIkigai (30 + 360) = getZodiacSignIkigai 30 :=
  ⟨by norm_num, zodiacSign_wraparound_amended.2.2 30 (by norm_num)⟩

/-! ## Aspect scan (`calculateAspects`, `src/api/services/calculator.js` 219-267) -/

/-- The per-body data `calculateAspects` reads: name, ecliptic longitude,
longitudinal speed. -/
structure Body where
  name : String
  longitude : ℚ
  speed : ℚ
  deriving DecidableEq, Repr

/-- One row of the `ASPECTS` table. -/
structure AspectDef where
  name : String
  angle : ℚ
  orb : ℚ
  symbol : String
  deriving DecidableEq, Repr

/-- The `ASPECTS` table, in source order. -/
def ASPECTS : List AspectDef :=
  [⟨"conjunction", 0, 8, "☌"⟩,
   ⟨"sextile", 60, 6, "⚹"⟩,
   ⟨"square", 90, 8, "□"⟩,
   ⟨"trine", 120, 8, "△"⟩,
   ⟨"opposition", 180, 8, "☍"⟩,
   ⟨"quincunx", 150, 3, "⚻"⟩,
   ⟨"semisextile", 30, 2, "⚺"⟩,
   ⟨"semisquare", 45, 2, "∠"⟩,
   ⟨"sesquiquadrate", 135, 2, "⚼"⟩]

/-- The `let diff = Math.abs(p1.longitude - p2.longitude); if (diff > 180) diff = 360 - diff`. -/
def angularSep (a b : ℚ) : ℚ :=
  if |a - b| > 180 then 360 - |a - b| else |a - b|

/-- The inner `for (const aspect of ASPECTS) ... break` loop: scan the
table in order, return the first entry whose orb tolerance is satisfied. -/
def findAspectLoop (diff : ℚ) : List AspectDef → Option AspectDef
  | [] => none
  | asp :: rest =>
    if |diff - asp.angle| ≤ asp.orb then some asp else findAspectLoop diff rest

/-- The loop run over the `ASPECTS` table. -/
def findAspectDef (diff : ℚ) : Option AspectDef := findAspectLoop diff ASPECTS

/-- The record pushed onto the `aspects` array. -/
structure AspectRec where
  planet1 : String
  planet2 : String
  aspect : String
  symbol : String
  exactAngle : ℚ
  actualAngle : ℚ
  orb : ℚ
  applying : Bool
  deriving DecidableEq, Repr

/-- The `applying: Math.abs(p1.speed) > Math.abs(p2.speed) ? p1.speed > p2.speed
: p2.speed > p1.speed`. -/
def applyingFlag (p1 p2 : Body) : Bool :=
  if |p1.speed| > |p2.speed| then decide (p1.speed > p2.speed)
  else decide (p2.speed > p1.speed)

/-- The body of the double loop for one ordered pair `(p1, p2)`. -/
def aspectBetween (p1 p2 : Body) : Option AspectRec :=
  (findAspectDef (angularSep p1.longitude p2.longitude)).map fun asp =>
    { planet1 := p1.name
      planet2 := p2.name
      aspect := asp.name
      symbol := asp.symbol
      exactAngle := asp.angle
      actualAngle := angularSep p1.longitude p2.longitude
      orb := |angularSep p1.longitude p2.longitude - asp.angle|
      applying := applyingFlag p1 p2 }

/-- All ordered pairs `(l[i], l[j])` with `i < j`, in loop order. -/
def allPairs {α : Type} : List α → List (α × α)
  | [] => []
  | x :: rest => rest.map (fun y => (x, y)) ++ allPairs rest

/-- The `calculateAspects(planets)`: the `i < j` double loop, pushing the first
matching aspect (if any) for each pair. -/
def calculateAspects (planets : List Body) : List AspectRec :=
  (allPairs planets).filterMap (fun pq => aspectBetween pq.1 pq.2)

theorem mem_allPairs {α : Type} {pq : α × α} :
    ∀ {l : List α}, pq ∈ allPairs l → pq.1 ∈ l ∧ pq.2 ∈ l := by
  intro l
  induction l with
  | nil => intro h; simp [allPairs] at h
  | cons x rest ih =>
    intro h
    simp only [allPairs, List.mem_append, List.mem_map] at h
    rcases h with ⟨y, hy, hpq⟩ | h
    · rw [← hpq]
      exact ⟨List.mem_cons_self _ _, List.mem_cons_of_mem _ hy⟩
    · obtain ⟨h1, h2⟩ := ih h
      exact ⟨List.mem_cons_of_mem _ h1, List.mem_cons_of_mem _ h2⟩

theorem allPairs_name_ne {l : List Body} (h : (l.map Body.name).Nodup) :
    ∀ pq ∈ allPairs l, pq.1.name ≠ pq.2.name := by
  induction l with
  | nil => intro pq hpq; simp [allPairs] at hpq
  | cons x rest ih =>
    intro pq hpq
    simp only [List.map_cons, List.nodup_cons] at h
    obtain ⟨hx, hrest⟩ := h
    simp only [allPairs, List.mem_append, List.mem_map] at hpq
    rcases hpq with ⟨y, hy, hpq⟩ | hpq
    · rw [← hpq]
      intro hcon
      exact hx (hcon ▸ List.mem_map_of_mem Body.name hy)
    · exact ih hrest pq hpq

/-- The angular separation of two in-range longitudes is in `[0, 180]`. -/
theorem angularSep_bounds {a b : ℚ} (ha0 : 0 ≤ a) (ha1 : a < 360)
    (hb0 : 0 ≤ b) (hb1 : b < 360) :
    0 ≤ angularSep a b ∧ angularSep a b ≤ 180 := by
  have habs : |a - b| < 360 := by
    rw [abs_sub_lt_iff]
    constructor <;> linarith
  have habs0 : 0 ≤ |a - b| := abs_nonneg _
  unfold angularSep
  by_cases h : |a - b| > 180
  · rw [if_pos h]
    constructor <;> linarith
  · rw [if_neg h]
    push_neg at h
    exact ⟨habs0, h⟩

/-- At most one body of a name-nodup list bears a given name. -/
theorem countP_name_le_one {l : List Body} (h : (l.map Body.name).Nodup)
    (B : String) : l.countP (fun y => y.name == B) ≤ 1 := by
  induction l with
  | nil => simp
  | cons x rest ih =>
    simp only [List.map_cons, List.nodup_cons] at h
    obtain ⟨hx, hrest⟩ := h
    rw [List.countP_cons]
    by_cases hxB : x.name == B
    · have hzero : rest.countP (fun y => y.name == B) = 0 := by
        rw [List.countP_eq_zero]
        intro y hy hcon
        apply hx
        have hB : x.name = B := by simpa using hxB
        have hyB : y.name = B := by simpa using hcon
        rw [hB, ← hyB]
        exact List.mem_map_of_mem Body.name hy
      simp [hxB, hzero]
    · have := ih hrest
      simp only [hxB, if_false]
      simpa using this

/-- The unordered-pair membership test on an aspect record. -/
def pairPred (A B : String) (r : AspectRec) : Bool :=
  (r.planet1 == A && r.planet2 == B) || (r.planet1 == B && r.planet2 == A)

/-- The unordered-pair membership test on a body pair. -/
def pairPredPair (A B : String) (pq : Body × Body) : Bool :=
  (pq.1.name == A && pq.2.name == B) || (pq.1.name == B && pq.2.name == A)

theorem countP_allPairs_le_one (A B : String) :
    ∀ (l : List Body), (l.map Body.name).Nodup →
      (allPairs l).countP (pairPredPair A B) ≤ 1 := by
  intro l
  induction l with
  | nil => intro h; simp [allPairs]
  | cons x rest ih =>
    intro h
    simp only [List.map_cons, List.nodup_cons] at h
    obtain ⟨hx, hrest⟩ := h
    have hxnotin : ∀ y ∈ rest, x.name ≠ y.name := by
      intro y hy hcon
      exact hx (hcon ▸ List.mem_map_of_mem Body.name hy)
    show ((rest.map (fun y => (x, y)) ++ allPairs rest).countP (pairPredPair A B)) ≤ 1
    rw [List.countP_append, List.countP_map]
    have htail0 : (x.name = A ∨ x.name = B) →
        (allPairs rest).countP (pairPredPair A B) = 0 := by
      intro hxab
      rw [List.countP_eq_zero]
      intro pq hpq hcon
      obtain ⟨h1, h2⟩ := mem_allPairs hpq
      simp only [pairPredPair, Bool.or_eq_true, Bool.and_eq_true, beq_iff_eq] at hcon
      rcases hxab with hA | hB
      · rcases hcon with ⟨hc1, _⟩ | ⟨_, hc2⟩
        · exact hxnotin pq.1 h1 (hA.trans hc1.symm)
        · exact hxnotin pq.2 h2 (hA.trans hc2.symm)
      · rcases hcon with ⟨_, hc2⟩ | ⟨hc1, _⟩
        · exact hxnotin pq.2 h2 (hB.trans hc2.symm)
        · exact hxnotin pq.1 h1 (hB.trans hc1.symm)
    by_cases hA : x.name = A
    · by_cases hAB : A = B
      · -- both names equal: head never matches, since rest lacks the name
        have hhead : rest.countP (pairPredPair A B ∘ fun y => (x, y)) = 0 := by
          rw [List.countP_eq_zero]
          intro y hy hcon
          simp only [Function.comp, pairPredPair, Bool.or_eq_true, Bool.and_eq_true,
            beq_iff_eq] at hcon
          rcases hcon with ⟨_, hc2⟩ | ⟨_, hc2⟩
          · exact hxnotin y hy (by rw [hA, hAB, hc2])
          · exact hxnotin y hy (by rw [hA, hc2])
        rw [hhead, htail0 (Or.inl hA)]
        omega
      · have hhead : rest.countP (pairPredPair A B ∘ fun y => (x, y)) ≤ 1 := by
          have hmono : rest.countP (pairPredPair A B ∘ fun y => (x, y)) ≤
              rest.countP (fun y => y.name == B) := by
            apply List.countP_mono_left
            intro y hy hcon
            simp only [Function.comp, pairPredPair, Bool.or_eq_true, Bool.and_eq_true,
              beq_iff_eq] at hcon
            rcases hcon with ⟨_, hc2⟩ | ⟨hc1, _⟩
            · simpa using hc2
            · exact absurd (hA ▸ hc1 : A = B) hAB
          exact le_trans hmono (countP_name_le_one hrest B)
        rw [htail0 (Or.inl hA)]
        omega
    · by_cases hB : x.name = B
      · have hhead : rest.countP (pairPredPair A B ∘ fun y => (x, y)) ≤ 1 := by
          have hmono : rest.countP (pairPredPair A B ∘ fun y => (x, y)) ≤
              rest.countP (fun y => y.name == A) := by
            apply List.countP_mono_left
            intro y hy hcon
            simp only [Function.comp, pairPredPair, Bool.or_eq_true, Bool.and_eq_true,
              beq_iff_eq] at hcon
            rcases hcon with ⟨hc1, _⟩ | ⟨_, hc2⟩
            · exact absurd hc1 hA
            · simpa using hc2
          exact le_trans hmono (countP_name_le_one hrest A)
        rw [htail0 (Or.inr hB)]
        omega
      · have hhead : rest.countP (pairPredPair A B ∘ fun y => (x, y)) = 0 := by
          rw [List.countP_eq_zero]
          intro y hy hcon
          simp only [Function.comp, pairPredPair, Bool.or_eq_true, Bool.and_eq_true,
            beq_iff_eq] at hcon
          rcases hcon with ⟨hc1, _⟩ | ⟨hc1, _⟩
          · exact hA hc1
          · exact hB hc1
        rw [hhead]
        simpa using ih hrest

/-- The aspect table is scanned in the priority order conjunction, sextile,
square, trine, opposition, quincunx, semisextile, semisquare,
sesquiquadrate; the first satisfied orb wins. -/
theorem findAspectDef_eq (d : ℚ) :
    findAspectDef d =
      if |d - 0| ≤ 8 then some ⟨"conjunction", 0, 8, "☌"⟩
      else if |d - 60| ≤ 6 then some ⟨"sextile", 60, 6, "⚹"⟩
      else if |d - 90| ≤ 8 then some ⟨"square", 90, 8, "□"⟩
      else if |d - 120| ≤ 8 then some ⟨"trine", 120, 8, "△"⟩
      else if |d - 180| ≤ 8 then some ⟨"opposition", 180, 8, "☍"⟩
      else if |d - 150| ≤ 3 then some ⟨"quincunx", 150, 3, "⚻"⟩
      else if |d - 30| ≤ 2 then some ⟨"semisextile", 30, 2, "⚺"⟩
      else if |d - 45| ≤ 2 then some ⟨"semisquare", 45, 2, "∠"⟩
      else if |d - 135| ≤ 2 then some ⟨"sesquiquadrate", 135, 2, "⚼"⟩
      else none := by
  simp only [findAspectDef, ASPECTS, findAspectLoop]

/-- C2: for every unordered pair of distinct chart bodies, the minimal
angular separation (in `[0,180]` for in-range longitudes) is computed and
tested against the aspect table in the source's priority order; each output
record arises from one ordered pair with the first matching definition; and
at most one aspect is recorded per unordered pair. -/
theorem calculateAspects_spec (planets : List Body)
    (hnodup : (planets.map Body.name).Nodup)
    (hrange : ∀ p ∈ planets, 0 ≤ p.longitude ∧ p.longitude < 360) :
    (∀ d : ℚ, findAspectDef d =
      if |d - 0| ≤ 8 then some ⟨"conjunction", 0, 8, "☌"⟩
      else if |d - 60| ≤ 6 then some ⟨"sextile", 60, 6, "⚹"⟩
      else if |d - 90| ≤ 8 then some ⟨"square", 90, 8, "□"⟩
      else if |d - 120| ≤ 8 then some ⟨"trine", 120, 8, "△"⟩
      else if |d - 180| ≤ 8 then some ⟨"opposition", 180, 8, "☍"⟩
      else if |d - 150| ≤ 3 then some ⟨"quincunx", 150, 3, "⚻"⟩
      else if |d - 30| ≤ 2 then some ⟨"semisextile", 30, 2, "⚺"⟩
      else if |d - 45| ≤ 2 then some ⟨"semisquare", 45, 2, "∠"⟩
      else if |d - 135| ≤ 2 then some ⟨"sesquiquadrate", 135, 2, "⚼"⟩
      else none) ∧
    (∀ r ∈ calculateAspects planets, ∃ p q : Body, ∃ asp : AspectDef,
      p ∈ planets ∧ q ∈ planets ∧ p.name ≠ q.name ∧
      findAspectDef (angularSep p.longitude q.longitude) = some asp ∧
      r = { planet1 := p.name, planet2 := q.name, aspect := asp.name,
            symbol := asp.symbol, exactAngle := asp.angle,
            actualAngle := angularSep p.longitude q.longitude,
            orb := |angularSep p.longitude q.longitude - asp.angle|,
            applying := applyingFlag p q } ∧
      0 ≤ r.actualAngle ∧ r.actualAngle ≤ 180) ∧
    (∀ A B : String, (calculateAspects planets).countP (pairPred A B) ≤ 1) := by
  refine ⟨findAspectDef_eq, ?_, ?_⟩
  · intro r hr
    rw [calculateAspects, List.mem_filterMap] at hr
    obtain ⟨pq, hpq, hf⟩ := hr
    obtain ⟨hp, hq⟩ := mem_allPairs hpq
    have hne := allPairs_name_ne hnodup pq hpq
    rw [aspectBetween, Option.map_eq_some'] at hf
    obtain ⟨asp, hfind, hrec⟩ := hf
    obtain ⟨hp0, hp1⟩ := hrange _ hp
    obtain ⟨hq0, hq1⟩ := hrange _ hq
    obtain ⟨hs0, hs1⟩ := angularSep_bounds hp0 hp1 hq0 hq1
    refine ⟨pq.1, pq.2, asp, hp, hq, hne, hfind, hrec.symm, ?_, ?_⟩
    · rw [← hrec]
      exact hs0
    · rw [← hrec]
      exact hs1
  · intro A B
    rw [calculateAspects, List.countP_filterMap]
    apply le_trans (List.countP_mono_left ?_) (countP_allPairs_le_one A B planets hnodup)
    intro pq _ hpq
    rcases hfind : findAspectDef (angularSep pq.1.longitude pq.2.longitude) with _ | asp
    · rw [aspectBetween, hfind] at hpq
      simp at hpq
    · rw [aspectBetween, hfind] at hpq
      simp only [Option.map_some', Option.map_map, Option.getD_some] at hpq
      simpa [pairPredPair, pairPred] using hpq

/-- A two-body chart used to instantiate `calculateAspects_spec`. -/
def examplePlanets : List Body := [⟨"sun", 10, 1⟩, ⟨"moon", 70, 2⟩]

/-- Witness for C2: the name-uniqueness and longitude-range hypotheses hold
for a concrete two-body chart. -/
theorem calculateAspects_spec_witness :
    ((examplePlanets.map Body.name).Nodup ∧
     (∀ p ∈ examplePlanets, 0 ≤ p.longitude ∧ p.longitude < 360)) ∧
    (∀ A B : String, (calculateAspects examplePlanets).countP (pairPred A B) ≤ 1) :=
  ⟨⟨by decide, by decide⟩,
   (calculateAspects_spec examplePlanets (by decide) (by decide)).2.2⟩

/-- C9 counterexample: with speeds `1` and `-1` (equal magnitudes, opposite
signs) the `applying` flag computed for `(A,B)` differs from the one
computed for `(B,A)`, refuting `aspect(A,B) == aspect(B,A)`. -/
theorem aspect_symm_cex :
    (aspectBetween ⟨"sun", 0, 1⟩ ⟨"moon", 60, -1⟩).map AspectRec.applying = some false ∧
    (aspectBetween ⟨"moon", 60, -1⟩ ⟨"sun", 0, 1⟩).map AspectRec.applying = some true ∧
    (aspectBetween ⟨"sun", 0, 1⟩ ⟨"moon", 60, -1⟩).map AspectRec.applying ≠
      (aspectBetween ⟨"moon", 60, -1⟩ ⟨"sun", 0, 1⟩).map AspectRec.applying := by
  have h1 : angularSep (0:ℚ) 60 = 60 := by norm_num [angularSep]
  have h2 : angularSep (60:ℚ) 0 = 60 := by norm_num [angularSep]
  have h3 : findAspectDef 60 = some ⟨"sextile", 60, 6, "⚹"⟩ := by
    rw [findAspectDef_eq]
    norm_num
  have h4 : applyingFlag ⟨"sun", 0, 1⟩ ⟨"moon", 60, -1⟩ = false := by
    norm_num [applyingFlag]
  have h5 : applyingFlag ⟨"moon", 60, -1⟩ ⟨"sun", 0, 1⟩ = true := by
    norm_num [applyingFlag]
  refine ⟨?_, ?_, ?_⟩
  · rw [aspectBetween]
    simp only []
    rw [h1, h3]
    simp [h4]
  · rw [aspectBetween]
    simp only []
    rw [h2, h3]
    simp [h5]
  · rw [aspectBetween, aspectBetween]
    simp only []
    rw [h1, h2, h3]
    simp [h4, h5]

/-- C9 (amended): the aspect computed for a swapped pair always agrees on
aspect name, symbol, exact angle, angular separation and orb; the
`applying` flag also agrees whenever the two speeds have different absolute
values or are equal — it can differ only when the speeds are exact
opposites. -/
theorem aspect_symm_amended :
    (∀ p q : Body,
      (aspectBetween p q).map
        (fun r => (r.aspect, r.symbol, r.exactAngle, r.actualAngle, r.orb)) =
      (aspectBetween q p).map
        (fun r => (r.aspect, r.symbol, r.exactAngle, r.actualAngle, r.orb))) ∧
    (∀ p q : Body, (|p.speed| ≠ |q.speed| ∨ p.speed = q.speed) →
      (aspectBetween p q).map AspectRec.applying =
      (aspectBetween q p).map AspectRec.applying) := by
  have hsep : ∀ p q : Body,
      angularSep q.longitude p.longitude = angularSep p.longitude q.longitude := by
    intro p q
    unfold angularSep
    rw [abs_sub_comm]
  constructor
  · intro p q
    rw [aspectBetween, aspectBetween, hsep]
    rcases findAspectDef (angularSep q.longitude p.longitude) with _ | asp <;> simp
  · intro p q h
    have happ : applyingFlag p q = applyingFlag q p := by
      unfold applyingFlag
      rcases h with hne | heq
      · rcases lt_or_gt_of_ne (fun hc => hne hc) with hlt | hgt
        · rw [if_neg (not_lt.mpr hlt.le), if_pos hlt]
        · rw [if_pos hgt, if_neg (not_lt.mpr hgt.le)]
      · rw [heq]
    rw [aspectBetween, aspectBetween, hsep, happ]
    rcases findAspectDef (angularSep q.longitude p.longitude) with _ | asp <;> simp

/-- Witness for C9 (amended): with speeds of different magnitude the
`applying` flag is swap-invariant. -/
theorem aspect_symm_amended_witness :
    (|(2:ℚ)| ≠ |(1:ℚ)| ∨ (2:ℚ) = 1) ∧
    (aspectBetween ⟨"sun", 0, 2⟩ ⟨"moon", 60, 1⟩).map AspectRec.applying =
      (aspectBetween ⟨"moon", 60, 1⟩ ⟨"sun", 0, 2⟩).map AspectRec.applying :=
  ⟨Or.inl (by norm_num),
   aspect_symm_amended.2 ⟨"sun", 0, 2⟩ ⟨"moon", 60, 1⟩ (Or.inl (by norm_num))⟩

/-! ## Cycle table lookups (Venus Star Point, `src/unnamed/part_009`;
Mars Phase, `src/api/services/mars-phase.js`)

Table dates (`YYYY-MM-DD`, parsed as UTC midnight) are modelled as epoch
day numbers; `parseDate` yields `day * 86400000` milliseconds, and
`Date.UTC(year, month-1, day, hour, minute)` yields
`day * 86400000 + hour * 3600000 + minute * 60000`. -/

/-- The `Date.UTC(y, m-1, d, hour, minute)` in epoch milliseconds, with `day`
the epoch day number of `(y, m, d)`. -/
def timeUTC (day hour minute : ℤ) : ℤ :=
  day * 86400000 + hour * 3600000 + minute * 60000

/-- The backward scan `for (let i = data.length - 1; i >= 0; i--) ... return i`:
the greatest index whose entry satisfies `p`. -/
def findLastIdx {α : Type} (p : α → Bool) : List α → Option ℕ
  | [] => none
  | e :: rest =>
    match findLastIdx p rest with
    | some i => some (i + 1)
    | none => if p e then some 0 else none

theorem findLastIdx_eq_none {α : Type} {p : α → Bool} {l : List α}
    (h : ∀ e ∈ l, p e = false) : findLastIdx p l = none := by
  induction l with
  | nil => rfl
  | cons e rest ih =>
    unfold findLastIdx
    rw [ih (fun x hx => h x (List.mem_cons_of_mem _ hx))]
    simp [h e (List.mem_cons_self _ _)]

theorem findLastIdx_eq_some {α : Type} [Inhabited α] {p : α → Bool} :
    ∀ {l : List α} {i : ℕ}, i < l.length → p (l.getD i default) = true →
      (∀ j, i < j → j < l.length → p (l.getD j default) = false) →
      findLastIdx p l = some i := by
  intro l
  induction l with
  | nil =>
    intro i hi
    simp at hi
  | cons e rest ih =>
    intro i hi hp hafter
    cases i with
    | zero =>
      have hnone : findLastIdx p rest = none := by
        apply findLastIdx_eq_none
        intro x hx
        obtain ⟨j, hj, hget⟩ := List.getElem_of_mem hx
        have h := hafter (j + 1) (by omega) (by simpa using hj)
        rw [List.getD_cons_succ] at h
        rw [List.getD_eq_getElem?_getD, List.getElem?_eq_getElem hj, hget] at h
        simpa using h
      unfold findLastIdx
      rw [hnone]
      rw [List.getD_cons_zero] at hp
      simp [hp]
    | succ i' =>
      have hrest : findLastIdx p rest = some i' := by
        apply ih (by simpa using hi)
        · simpa using hp
        · intro j hj hjlen
          have h := hafter (j + 1) (by omega) (by simpa using hjlen)
          simpa using h
      unfold findLastIdx
      rw [hrest]

theorem findLastIdx_some_spec {α : Type} [Inhabited α] {p : α → Bool} :
    ∀ {l : List α} {i : ℕ}, findLastIdx p l = some i →
      i < l.length ∧ p (l.getD i default) = true := by
  intro l
  induction l with
  | nil => intro i h; simp [findLastIdx] at h
  | cons e rest ih =>
    intro i h
    unfold findLastIdx at h
    rcases hr : findLastIdx p rest with _ | i'
    · rw [hr] at h
      by_cases hp : p e
      · rw [if_pos hp] at h
        obtain rfl : (0 : ℕ) = i := by simpa using h
        exact ⟨by simp, by simpa using hp⟩
      · rw [if_neg hp] at h
        simp at h
    · rw [hr] at h
      obtain rfl : i' + 1 = i := by simpa using h
      obtain ⟨h1, h2⟩ := ih hr
      exact ⟨by simpa using h1, by simpa using h2⟩

/-! ### Venus Star Point tables -/

/-- One entry of `vsp-dates.json`: date (epoch day), position, star type, sign. -/
structure VspEvent where
  day : ℤ
  position : ℚ
  type : String
  sign : String
  deriving DecidableEq, Repr, Inhabited

/-- The `findPrenatalVSPIndex(targetDate, beforeOnly)`: backward scan for the
last table entry strictly before (or on, per flag) the target instant. -/
def findPrenatalVSPIndex (data : List VspEvent) (targetTime : ℤ)
    (beforeOnly : Bool) : Option ℕ :=
  findLastIdx (fun e =>
    if beforeOnly then decide (e.day * 86400000 < targetTime)
    else decide (e.day * 86400000 ≤ targetTime)) data

/-- The `findPostnatalVSPIndex(targetDate)`: forward scan for the first entry
strictly after the target instant. -/
def findPostnatalVSPIndex (data : List VspEvent) (targetTime : ℤ) : Option ℕ :=
  List.findIdx? (fun e => decide (targetTime < e.day * 86400000)) data

/-- The success shape of `calculatePrenatalVSP`. -/
structure VspOk where
  date : ℤ
  position : ℚ
  type : String
  sign : String
  daysBeforeBirth : ℤ
  deriving DecidableEq, Repr

/-- The `calculatePrenatalVSP` either succeeds or returns
`{ error, available: false }`. -/
inductive VspResult where
  | ok (r : VspOk)
  | unavailable (error : String)
  deriving DecidableEq, Repr

/-- The `date` field of a successful result. -/
def VspResult.resultDate : VspResult → Option ℤ
  | .ok r => some r.date
  | .unavailable _ => none

/-- The `calculatePrenatalVSP(year, month, day, hour = 12, minute = 0)`; in the
source `hour` defaults to `12` (noon UTC) when the caller omits it. -/
def calculatePrenatalVSP (data : List VspEvent) (day hour minute : ℤ) : VspResult :=
  match findPrenatalVSPIndex data (timeUTC day hour minute) true with
  | none => .unavailable "Birth date is before available VSP data (starts 1901)"
  | some i =>
    .ok { date := (data.getD i default).day
          position := (data.getD i default).position
          type := (data.getD i default).type
          sign := (data.getD i default).sign
          daysBeforeBirth :=
            Int.fdiv (timeUTC day hour minute - (data.getD i default).day * 86400000)
              86400000 }

/-! ### Mars Phase tables -/

/-- One entry of `mars-phase-dates.json`: date (epoch day), cycle, phase. -/
structure MarsEvent where
  day : ℤ
  cycle : String
  phase : String
  deriving DecidableEq, Repr, Inhabited

/-- The `findPrenatalMarsPhaseIndex(targetDate, beforeOnly)`: same backward scan
as the VSP lookup, over the Mars table. -/
def findPrenatalMarsPhaseIndex (data : List MarsEvent) (targetTime : ℤ)
    (beforeOnly : Bool) : Option ℕ :=
  findLastIdx (fun e =>
    if beforeOnly then decide (e.day * 86400000 < targetTime)
    else decide (e.day * 86400000 ≤ targetTime)) data

/-- The success shape of `calculatePrenatalMarsPhase`. -/
structure MarsOk where
  date : ℤ
  cycle : String
  phase : String
  daysBeforeBirth : ℤ
  deriving DecidableEq, Repr

/-- The `calculatePrenatalMarsPhase` either succeeds or returns
`{ error, available: false }`. -/
inductive MarsResult where
  | ok (r : MarsOk)
  | unavailable (error : String)
  deriving DecidableEq, Repr

/-- The `calculatePrenatalMarsPhase(year, month, day, hour = 12, minute = 0)`. -/
def calculatePrenatalMarsPhase (data : List MarsEvent) (day hour minute : ℤ) :
    MarsResult :=
  match findPrenatalMarsPhaseIndex data (timeUTC day hour minute) true with
  | none => .unavailable "Birth date is before available Mars Phase data (starts 1902)"
  | some i =>
    .ok { date := (data.getD i default).day
          cycle := (data.getD i default).cycle
          phase := (data.getD i default).phase
          daysBeforeBirth :=
            Int.fdiv (timeUTC day hour minute - (data.getD i default).day * 86400000)
              86400000 }

/-- C7: when the birth instant is on or before every table entry (e.g. any
date before the tables begin in 1901/1902), both prenatal lookups return an
explicit unavailable result with an error message — a value, not an
exception — rather than crashing. -/
theorem prenatal_before_table_unavailable (vdata : List VspEvent)
    (mdata : List MarsEvent) (day hour minute : ℤ)
    (hv : ∀ e ∈ vdata, timeUTC day hour minute ≤ e.day * 86400000)
    (hm : ∀ e ∈ mdata, timeUTC day hour minute ≤ e.day * 86400000) :
    calculatePrenatalVSP vdata day hour minute =
      VspResult.unavailable "Birth date is before available VSP data (starts 1901)" ∧
    calculatePrenatalMarsPhase mdata day hour minute =
      MarsResult.unavailable "Birth date is before available Mars Phase data (starts 1902)" := by
  constructor
  · have hnone : findPrenatalVSPIndex vdata (timeUTC day hour minute) true = none := by
      apply findLastIdx_eq_none
      intro e he
      simp [not_lt.mpr (hv e he)]
    rw [calculatePrenatalVSP, hnone]
  · have hnone : findPrenatalMarsPhaseIndex mdata (timeUTC day hour minute) true = none := by
      apply findLastIdx_eq_none
      intro e he
      simp [not_lt.mpr (hm e he)]
    rw [calculatePrenatalMarsPhase, hnone]

/-- A one-entry VSP table whose entry is dated after the example birth. -/
def lateVspTable : List VspEvent := [⟨100, 5, "Morning Star", "Aries"⟩]

/-- A one-entry Mars table whose entry is dated after the example birth. -/
def lateMarsTable : List MarsEvent := [⟨100, "Aries", "Inception"⟩]

/-- Witness for C7 at a birth on epoch day 0, midnight. -/
theorem prenatal_before_table_unavailable_witness :
    (∀ e ∈ lateVspTable, timeUTC 0 0 0 ≤ e.day * 86400000) ∧
    (∀ e ∈ lateMarsTable, timeUTC 0 0 0 ≤ e.day * 86400000) ∧
    (calculatePrenatalVSP lateVspTable 0 0 0 =
      VspResult.unavailable "Birth date is before available VSP data (starts 1901)" ∧
     calculatePrenatalMarsPhase lateMarsTable 0 0 0 =
      MarsResult.unavailable "Birth date is before available Mars Phase data (starts 1902)") :=
  ⟨by decide, by decide,
   prenatal_before_table_unavailable lateVspTable lateMarsTable 0 0 0
     (by decide) (by decide)⟩

theorem getD_eq_getElem' {α : Type} [Inhabited α] {l : List α} {i : ℕ}
    (h : i < l.length) : l.getD i default = l[i] := by
  rw [List.getD_eq_getElem?_getD, List.getElem?_eq_getElem h]
  rfl

/-- A two-entry VSP table used for the exact-date scenario. -/
def exampleVspTable : List VspEvent :=
  [⟨0, 10, "Morning Star", "Aries"⟩, ⟨100, 20, "Evening Star", "Leo"⟩]

/-- C4 counterexample: for a birth dated exactly on the VSP table entry of
day 100, `calculatePrenatalVSP` called with the source's default birth time
(noon UTC) returns the SAME-DAY entry (whose midnight timestamp is strictly
before noon), not the preceding entry of day 0 — refuting "calculatePrenatalVSP
for such a birth returns the table event preceding the one dated on the
birth date". -/
theorem vsp_exact_date_cex :
    (calculatePrenatalVSP exampleVspTable 100 12 0).resultDate = some 100 ∧
    (calculatePrenatalVSP exampleVspTable 100 12 0).resultDate ≠ some 0 := by
  decide

/-- C4 (amended): `findPrenatalVSPIndex` with `strictlyBefore = true` and a
target exactly equal to a table entry's timestamp resolves to the entry
preceding it, so a birth at 00:00 UTC on a table date yields the previous
table event; but with the source's default noon birth time the same-day
entry (timestamped at midnight, strictly before noon) is returned instead. -/
theorem vsp_exact_date_amended (data : List VspEvent)
    (hsorted : List.Pairwise (fun a b : VspEvent => a.day < b.day) data)
    (j : ℕ) (hj : j < data.length) (hj1 : 1 ≤ j) :
    findPrenatalVSPIndex data (timeUTC (data.getD j default).day 0 0) true = some (j - 1) ∧
    (calculatePrenatalVSP data (data.getD j default).day 0 0).resultDate =
      some (data.getD (j - 1) default).day ∧
    findPrenatalVSPIndex data (timeUTC (data.getD j default).day 12 0) true = some j ∧
    (calculatePrenatalVSP data (data.getD j default).day 12 0).resultDate =
      some (data.getD j default).day := by
  have hpair : ∀ a b : ℕ, a < b → b < data.length →
      (data.getD a default).day < (data.getD b default).day := by
    intro a b hab hb
    rw [getD_eq_getElem' (lt_trans hab hb), getD_eq_getElem' hb]
    exact List.pairwise_iff_getElem.mp hsorted a b (lt_trans hab hb) hb hab
  have h1 : findPrenatalVSPIndex data (timeUTC (data.getD j default).day 0 0) true =
      some (j - 1) := by
    apply findLastIdx_eq_some (by omega)
    · have hlt := hpair (j - 1) j (by omega) hj
      simp only [timeUTC, decide_eq_true_eq, if_true]
      omega
    · intro m hm hmlen
      have hge : (data.getD j default).day ≤ (data.getD m default).day := by
        rcases eq_or_lt_of_le (by omega : j ≤ m) with heq | hlt
        · rw [heq]
        · exact (hpair j m hlt hmlen).le
      simp only [timeUTC, decide_eq_false_iff_not, not_lt, if_true]
      omega
  have h3 : findPrenatalVSPIndex data (timeUTC (data.getD j default).day 12 0) true =
      some j := by
    apply findLastIdx_eq_some hj
    · simp only [timeUTC, decide_eq_true_eq, if_true]
      omega
    · intro m hm hmlen
      have hlt := hpair j m hm hmlen
      simp only [timeUTC, decide_eq_false_iff_not, not_lt, if_true]
      omega
  refine ⟨h1, ?_, h3, ?_⟩
  · rw [calculatePrenatalVSP, h1]
    rfl
  · rw [calculatePrenatalVSP, h3]
    rfl

/-- Witness for C4 (amended): the sortedness and index hypotheses hold for
the two-entry table at `j = 1`. -/
theorem vsp_exact_date_amended_witness :
    (List.Pairwise (fun a b : VspEvent => a.day < b.day) exampleVspTable) ∧
    (findPrenatalVSPIndex exampleVspTable
        (timeUTC (exampleVspTable.getD 1 default).day 0 0) true = some 0 ∧
     (calculatePrenatalVSP exampleVspTable (exampleVspTable.getD 1 default).day 0 0).resultDate =
        some (exampleVspTable.getD 0 default).day ∧
     findPrenatalVSPIndex exampleVspTable
        (timeUTC (exampleVspTable.getD 1 default).day 12 0) true = some 1 ∧
     (calculatePrenatalVSP exampleVspTable (exampleVspTable.getD 1 default).day 12 0).resultDate =
        some (exampleVspTable.getD 1 default).day) :=
  ⟨by decide,
   vsp_exact_date_amended exampleVspTable (by decide) 1 (by decide) (by decide)⟩

/-! ### Mars cycle context (`getMarsCycleContext`, `mars-phase.js` 136-198) -/

/-- One element of `allPhasesInCycle`: a table entry plus the
prenatal/current tags added by `getMarsCycleContext`. -/
structure MarsPhaseTagged where
  day : ℤ
  cycle : String
  phase : String
  isPrenatal : Bool
  isCurrentPhase : Bool
  deriving DecidableEq, Repr, Inhabited

/-- The `while (startIndex > 0 && data[startIndex-1].cycle === currentCycle)
startIndex--` walk back to the start of the cycle (`data[startIndex-1]`
modelled totally via `getD`; in-range in every reachable call). -/
def cycleStartAux (data : List MarsEvent) (cyc : String) : ℕ → ℕ
  | 0 => 0
  | s + 1 =>
    if (data.getD s default).cycle == cyc then cycleStartAux data cyc s else s + 1

/-- The `while (i < length && data[i].cycle === currentCycle)` collection
loop, keeping the table index alongside each entry; `fuel` bounds the
iteration count (`data.length` suffices). -/
def collectLoop (data : List MarsEvent) (cyc : String) : ℕ → ℕ → List (ℕ × MarsEvent)
  | _, 0 => []
  | i, fuel + 1 =>
    if decide (i < data.length) && ((data.getD i default).cycle == cyc) then
      (i, data.getD i default) :: collectLoop data cyc (i + 1) fuel
    else []

theorem cycleStartAux_le (data : List MarsEvent) (cyc : String) :
    ∀ s, cycleStartAux data cyc s ≤ s := by
  intro s
  induction s with
  | zero => simp [cycleStartAux]
  | succ s ih =>
    unfold cycleStartAux
    by_cases h : (data.getD s default).cycle == cyc
    · rw [if_pos h]
      omega
    · rw [if_neg h]

theorem cycleStartAux_all (data : List MarsEvent) (cyc : String) :
    ∀ s, (data.getD s default).cycle = cyc →
      ∀ m, cycleStartAux data cyc s ≤ m → m ≤ s →
        (data.getD m default).cycle = cyc := by
  intro s
  induction s with
  | zero =>
    intro hs m _ hm
    interval_cases m
    exact hs
  | succ s ih =>
    intro hs m hm1 hm2
    unfold cycleStartAux at hm1
    by_cases hc : (data.getD s default).cycle == cyc
    · rw [if_pos hc] at hm1
      rcases Nat.lt_or_ge m (s + 1) with hlt | hge
      · exact ih (by simpa using hc) m hm1 (by omega)
      · have heq : m = s + 1 := by omega
        rw [heq]
        exact hs
    · rw [if_neg hc] at hm1
      have heq : m = s + 1 := by omega
      rw [heq]
      exact hs

theorem collectLoop_mem (data : List MarsEvent) (cyc : String) :
    ∀ fuel i j e, (j, e) ∈ collectLoop data cyc i fuel →
      i ≤ j ∧ j < data.length ∧ data.getD j default = e ∧ e.cycle = cyc := by
  intro fuel
  induction fuel with
  | zero => intro i j e h; simp [collectLoop] at h
  | succ fuel ih =>
    intro i j e h
    unfold collectLoop at h
    by_cases hcond : decide (i < data.length) && ((data.getD i default).cycle == cyc)
    · rw [if_pos hcond] at h
      obtain ⟨hlen, hcyc⟩ := Bool.and_eq_true_iff.mp hcond
      rcases List.mem_cons.mp h with heq | hmem
      · have h5 : j = i := congrArg Prod.fst heq
        have h6 : e = data.getD i default := congrArg Prod.snd heq
        refine ⟨?_, ?_, ?_, ?_⟩
        · rw [h5]
        · rw [h5]
          simpa using hlen
        · rw [h5, h6]
        · rw [h6]
          simpa using hcyc
      · obtain ⟨h1, h2, h3, h4⟩ := ih (i + 1) j e hmem
        exact ⟨by omega, h2, h3, h4⟩
    · rw [if_neg hcond] at h
      simp at h

theorem collectLoop_map_fst (data : List MarsEvent) (cyc : String) :
    ∀ fuel i, ∃ n, (collectLoop data cyc i fuel).map Prod.fst = List.range' i n := by
  intro fuel
  induction fuel with
  | zero => intro i; exact ⟨0, rfl⟩
  | succ fuel ih =>
    intro i
    unfold collectLoop
    by_cases hcond : decide (i < data.length) && ((data.getD i default).cycle == cyc)
    · rw [if_pos hcond]
      obtain ⟨n, hn⟩ := ih (i + 1)
      refine ⟨n + 1, ?_⟩
      rw [List.map_cons, hn]
      rfl
    · rw [if_neg hcond]
      exact ⟨0, rfl⟩

theorem collectLoop_contains (data : List MarsEvent) (cyc : String) :
    ∀ fuel i t, i ≤ t → t < data.length → t < i + fuel →
      (∀ m, i ≤ m → m ≤ t → (data.getD m default).cycle = cyc) →
      (t, data.getD t default) ∈ collectLoop data cyc i fuel := by
  intro fuel
  induction fuel with
  | zero => intro i t h1 _ h3 _; omega
  | succ fuel ih =>
    intro i t h1 h2 h3 hall
    have hilt : i < data.length := by omega
    have hicyc : (data.getD i default).cycle == cyc := by
      have := hall i (le_refl _) h1
      simpa using this
    have hcond : (decide (i < data.length) && ((data.getD i default).cycle == cyc)) = true := by
      rw [Bool.and_eq_true]
      exact ⟨by simpa using hilt, hicyc⟩
    unfold collectLoop
    rw [if_pos hcond]
    rcases eq_or_lt_of_le h1 with heq | hlt
    · rw [heq]
      exact List.mem_cons_self _ _
    · exact List.mem_cons_of_mem _
        (ih (i + 1) t (by omega) h2 (by omega) (fun m hm1 hm2 => hall m (by omega) hm2))

/-- The `collectLoop` starting inside the cycle begins with its start entry. -/
theorem collectLoop_cons (data : List MarsEvent) (cyc : String) (i fuel : ℕ)
    (hilt : i < data.length) (hcyc : (data.getD i default).cycle = cyc) :
    collectLoop data cyc i (fuel + 1) =
      (i, data.getD i default) :: collectLoop data cyc (i + 1) fuel := by
  have hcond : (decide (i < data.length) && ((data.getD i default).cycle == cyc)) = true := by
    rw [Bool.and_eq_true]
    exact ⟨by simpa using hilt, by simpa using hcyc⟩
  rw [collectLoop.eq_2, if_pos hcond]

/-- The indexed phases of the cycle containing the prenatal index. -/
def marsCyclePhasesIdx (data : List MarsEvent) (pIdx : ℕ) : List (ℕ × MarsEvent) :=
  collectLoop data (data.getD pIdx default).cycle
    (cycleStartAux data (data.getD pIdx default).cycle pIdx) data.length

/-- The `cyclePhases` array: each phase of the cycle tagged with
`isPrenatal` (table timestamp strictly before the birth instant) and
`isCurrentPhase` (index equals the prenatal index). -/
def marsCyclePhases (data : List MarsEvent) (birthTime : ℤ) (pIdx : ℕ) :
    List MarsPhaseTagged :=
  (marsCyclePhasesIdx data pIdx).map (fun ie =>
    { day := ie.2.day
      cycle := ie.2.cycle
      phase := ie.2.phase
      isPrenatal := decide (ie.2.day * 86400000 < birthTime)
      isCurrentPhase := decide (ie.1 = pIdx) })

/-- The `cycleStart = parseDate(cyclePhases[0].date)` in milliseconds. -/
def marsCycleStartMs (data : List MarsEvent) (birthTime : ℤ) (pIdx : ℕ) : ℤ :=
  ((marsCyclePhases data birthTime pIdx).headD default).day * 86400000

/-- The `cycleEnd = cyclePhases.length > 0 ? parseDate(last) : birthDate`. -/
def marsCycleEndMs (data : List MarsEvent) (birthTime : ℤ) (pIdx : ℕ) : ℤ :=
  if 0 < (marsCyclePhases data birthTime pIdx).length then
    ((marsCyclePhases data birthTime pIdx).getLastD default).day * 86400000
  else birthTime

/-- The `totalCycleDays = (cycleEnd - cycleStart) / 86400000` (exact arithmetic,
no flooring in the source at this point). -/
def marsTotalCycleDays (data : List MarsEvent) (birthTime : ℤ) (pIdx : ℕ) : ℚ :=
  ((marsCycleEndMs data birthTime pIdx - marsCycleStartMs data birthTime pIdx : ℤ) : ℚ)
    / 86400000

/-- The `daysIntoCycle = (birthDate - cycleStart) / 86400000`. -/
def marsDaysIntoCycle (data : List MarsEvent) (birthTime : ℤ) (pIdx : ℕ) : ℚ :=
  ((birthTime - marsCycleStartMs data birthTime pIdx : ℤ) : ℚ) / 86400000

/-- The `cycleProgress = totalCycleDays > 0
? Math.min(100, (daysIntoCycle / totalCycleDays) * 100) : 0`. -/
def marsCycleProgress (data : List MarsEvent) (birthTime : ℤ) (pIdx : ℕ) : ℚ :=
  if 0 < marsTotalCycleDays data birthTime pIdx then
    min 100 (marsDaysIntoCycle data birthTime pIdx
      / marsTotalCycleDays data birthTime pIdx * 100)
  else 0

/-- The success shape of `getMarsCycleContext`. -/
structure MarsCycleContext where
  birthDay : ℤ
  currentCycle : String
  prenatalDay : ℤ
  prenatalPhase : String
  prenatalCycle : String
  prenatalDaysBeforeBirth : ℤ
  cycleProgress : ℚ
  daysIntoCycle : ℤ
  totalCycleDays : ℤ
  allPhasesInCycle : List MarsPhaseTagged
  deriving Repr

/-- The `getMarsCycleContext` either succeeds or returns
`{ error, available: false }`. -/
inductive MarsCtxResult where
  | ok (c : MarsCycleContext)
  | unavailable (error : String)

/-- The `allPhasesInCycle` of a successful context (empty if unavailable). -/
def MarsCtxResult.phases : MarsCtxResult → List MarsPhaseTagged
  | .ok c => c.allPhasesInCycle
  | .unavailable _ => []

/-- Availability flag of a context result. -/
def MarsCtxResult.isAvailable : MarsCtxResult → Bool
  | .ok _ => true
  | .unavailable _ => false

/-- The `getMarsCycleContext(year, month, day)`: birth instant is noon UTC of
the birth date; find the prenatal phase, reconstruct its whole cycle, tag
each phase, and compute the cycle progress. -/
def getMarsCycleContext (data : List MarsEvent) (day : ℤ) : MarsCtxResult :=
  match findPrenatalMarsPhaseIndex data (timeUTC day 12 0) true with
  | none => .unavailable "Birth date is before available Mars Phase data"
  | some pIdx =>
    .ok { birthDay := day
          currentCycle := (data.getD pIdx default).cycle
          prenatalDay := (data.getD pIdx default).day
          prenatalPhase := (data.getD pIdx default).phase
          prenatalCycle := (data.getD pIdx default).cycle
          prenatalDaysBeforeBirth :=
            Int.fdiv (timeUTC day 12 0 - (data.getD pIdx default).day * 86400000) 86400000
          cycleProgress := marsCycleProgress data (timeUTC day 12 0) pIdx
          daysIntoCycle := ⌊marsDaysIntoCycle data (timeUTC day 12 0) pIdx⌋
          totalCycleDays := ⌊marsTotalCycleDays data (timeUTC day 12 0) pIdx⌋
          allPhasesInCycle := marsCyclePhases data (timeUTC day 12 0) pIdx }

/-- The `cycleProgress` of a successful context (0 if unavailable). -/
def MarsCtxResult.progress : MarsCtxResult → ℚ
  | .ok c => c.cycleProgress
  | .unavailable _ => 0

/-- The `currentCycle` of a successful context. -/
def MarsCtxResult.cycleName : MarsCtxResult → String
  | .ok c => c.currentCycle
  | .unavailable _ => ""

/-- The prenatal phase date of a successful context. -/
def MarsCtxResult.prenatalDayOf : MarsCtxResult → ℤ
  | .ok c => c.prenatalDay
  | .unavailable _ => 0

/-- The prenatal phase name of a successful context. -/
def MarsCtxResult.prenatalPhaseOf : MarsCtxResult → String
  | .ok c => c.prenatalPhase
  | .unavailable _ => ""

/-- Facts available whenever the prenatal Mars index resolves. -/
theorem marsContext_facts (data : List MarsEvent) (day : ℤ) (pIdx : ℕ)
    (hidx : findPrenatalMarsPhaseIndex data (timeUTC day 12 0) true = some pIdx) :
    pIdx < data.length ∧
    (data.getD pIdx default).day * 86400000 < timeUTC day 12 0 ∧
    cycleStartAux data (data.getD pIdx default).cycle pIdx ≤ pIdx ∧
    (∀ m, cycleStartAux data (data.getD pIdx default).cycle pIdx ≤ m → m ≤ pIdx →
      (data.getD m default).cycle = (data.getD pIdx default).cycle) ∧
    (pIdx, data.getD pIdx default) ∈ marsCyclePhasesIdx data pIdx ∧
    (∃ rest, marsCyclePhasesIdx data pIdx =
      (cycleStartAux data (data.getD pIdx default).cycle pIdx,
       data.getD (cycleStartAux data (data.getD pIdx default).cycle pIdx) default) :: rest) := by
  have hidx' : findLastIdx (fun e : MarsEvent =>
      if true then decide (e.day * 86400000 < timeUTC day 12 0)
      else decide (e.day * 86400000 ≤ timeUTC day 12 0)) data = some pIdx := hidx
  obtain ⟨hlen, hp⟩ := findLastIdx_some_spec hidx'
  have hplt : (data.getD pIdx default).day * 86400000 < timeUTC day 12 0 := by
    simpa using hp
  have hle := cycleStartAux_le data (data.getD pIdx default).cycle pIdx
  have hall := cycleStartAux_all data (data.getD pIdx default).cycle pIdx rfl
  have hslt : cycleStartAux data (data.getD pIdx default).cycle pIdx < data.length := by
    omega
  have hmem : (pIdx, data.getD pIdx default) ∈ marsCyclePhasesIdx data pIdx := by
    apply collectLoop_contains data _ data.length _ pIdx hle hlen (by omega)
    intro m hm1 hm2
    exact hall m hm1 hm2
  have hscyc : (data.getD (cycleStartAux data (data.getD pIdx default).cycle pIdx)
      default).cycle = (data.getD pIdx default).cycle :=
    hall _ (le_refl _) hle
  obtain ⟨f, hf⟩ : ∃ f, data.length = f + 1 := ⟨data.length - 1, by omega⟩
  refine ⟨hlen, hplt, hle, hall, hmem, ?_⟩
  rw [marsCyclePhasesIdx, hf, collectLoop_cons data _ _ f hslt hscyc]
  exact ⟨_, rfl⟩

/-- C5: whenever the prenatal Mars Phase index resolves (and the table is
chronologically sorted), `getMarsCycleContext` returns an available result
whose `cycleProgress` is computed as
`100 × (birth_days_into_cycle / total_cycle_days)` clamped at 100 (and 0
when the cycle has no extent), and that progress always lies in `[0,100]`. -/
theorem marsCycleProgress_spec (data : List MarsEvent) (day : ℤ) (pIdx : ℕ)
    (hsorted : List.Pairwise (fun a b : MarsEvent => a.day ≤ b.day) data)
    (hidx : findPrenatalMarsPhaseIndex data (timeUTC day 12 0) true = some pIdx) :
    (getMarsCycleContext data day).isAvailable = true ∧
    (getMarsCycleContext data day).progress =
      (if 0 < marsTotalCycleDays data (timeUTC day 12 0) pIdx then
        min 100 (marsDaysIntoCycle data (timeUTC day 12 0) pIdx /
          marsTotalCycleDays data (timeUTC day 12 0) pIdx * 100)
      else 0) ∧
    0 ≤ (getMarsCycleContext data day).progress ∧
    (getMarsCycleContext data day).progress ≤ 100 := by
  obtain ⟨hlen, hplt, hle, hall, hmem, rest, hcons⟩ :=
    marsContext_facts data day pIdx hidx
  have hctx : getMarsCycleContext data day = MarsCtxResult.ok
      { birthDay := day
        currentCycle := (data.getD pIdx default).cycle
        prenatalDay := (data.getD pIdx default).day
        prenatalPhase := (data.getD pIdx default).phase
        prenatalCycle := (data.getD pIdx default).cycle
        prenatalDaysBeforeBirth :=
          Int.fdiv (timeUTC day 12 0 - (data.getD pIdx default).day * 86400000) 86400000
        cycleProgress := marsCycleProgress data (timeUTC day 12 0) pIdx
        daysIntoCycle := ⌊marsDaysIntoCycle data (timeUTC day 12 0) pIdx⌋
        totalCycleDays := ⌊marsTotalCycleDays data (timeUTC day 12 0) pIdx⌋
        allPhasesInCycle := marsCyclePhases data (timeUTC day 12 0) pIdx } := by
    unfold getMarsCycleContext
    rw [hidx]
  have hstart : marsCycleStartMs data (timeUTC day 12 0) pIdx =
      (data.getD (cycleStartAux data (data.getD pIdx default).cycle pIdx) default).day
        * 86400000 := by
    rw [marsCycleStartMs, marsCyclePhases, hcons]
    rfl
  have hdayle : (data.getD (cycleStartAux data (data.getD pIdx default).cycle pIdx)
      default).day ≤ (data.getD pIdx default).day := by
    rcases eq_or_lt_of_le hle with heq | hlt
    · rw [heq]
    · have hslt : cycleStartAux data (data.getD pIdx default).cycle pIdx < data.length := by
        omega
      rw [getD_eq_getElem' hslt]
      have h2 : (data.getD pIdx default).day = data[pIdx].day := by
        rw [getD_eq_getElem' hlen]
      rw [h2]
      exact List.pairwise_iff_getElem.mp hsorted _ _ hslt hlen hlt
  have hdi : 0 ≤ marsDaysIntoCycle data (timeUTC day 12 0) pIdx := by
    rw [marsDaysIntoCycle, hstart]
    apply div_nonneg _ (by norm_num)
    have : (data.getD (cycleStartAux data (data.getD pIdx default).cycle pIdx)
        default).day * 86400000 < timeUTC day 12 0 := by
      calc (data.getD (cycleStartAux data (data.getD pIdx default).cycle pIdx)
            default).day * 86400000
          ≤ (data.getD pIdx default).day * 86400000 := by
            apply mul_le_mul_of_nonneg_right hdayle
            norm_num
        _ < timeUTC day 12 0 := hplt
    push_cast
    have := this
    exact_mod_cast sub_nonneg.mpr this.le
  have hprog : (getMarsCycleContext data day).progress =
      marsCycleProgress data (timeUTC day 12 0) pIdx := by
    rw [hctx]
    rfl
  refine ⟨by rw [hctx]; rfl, by rw [hprog]; rfl, ?_, ?_⟩
  · rw [hprog, marsCycleProgress]
    by_cases hT : 0 < marsTotalCycleDays data (timeUTC day 12 0) pIdx
    · rw [if_pos hT]
      apply le_min (by norm_num)
      positivity
    · rw [if_neg hT]
  · rw [hprog, marsCycleProgress]
    by_cases hT : 0 < marsTotalCycleDays data (timeUTC day 12 0) pIdx
    · rw [if_pos hT]
      exact min_le_left _ _
    · rw [if_neg hT]
      norm_num

/-- Witness for C5: hypotheses hold for a concrete three-entry Mars table
at birth day 60 (prenatal index 1). -/
def exampleMarsTable : List MarsEvent :=
  [⟨0, "Aries", "Inception"⟩, ⟨50, "Aries", "Emergence"⟩, ⟨700, "Taurus", "Inception"⟩]

theorem marsCycleProgress_spec_witness :
    (List.Pairwise (fun a b : MarsEvent => a.day ≤ b.day) exampleMarsTable) ∧
    (findPrenatalMarsPhaseIndex exampleMarsTable (timeUTC 60 12 0) true = some 1) ∧
    ((getMarsCycleContext exampleMarsTable 60).isAvailable = true ∧
     (getMarsCycleContext exampleMarsTable 60).progress =
       (if 0 < marsTotalCycleDays exampleMarsTable (timeUTC 60 12 0) 1 then
         min 100 (marsDaysIntoCycle exampleMarsTable (timeUTC 60 12 0) 1 /
           marsTotalCycleDays exampleMarsTable (timeUTC 60 12 0) 1 * 100)
       else 0) ∧
     0 ≤ (getMarsCycleContext exampleMarsTable 60).progress ∧
     (getMarsCycleContext exampleMarsTable 60).progress ≤ 100) :=
  ⟨by decide, by decide,
   marsCycleProgress_spec exampleMarsTable 60 1 (by decide) (by decide)⟩

/-- A Mars table with a phase dated exactly on the birth date. -/
def marsCexTable : List MarsEvent :=
  [⟨0, "Aries", "Inception"⟩, ⟨50, "Aries", "Emergence"⟩]

/-- C10 counterexample: for a birth on day 50, the phase entry dated
day 50 (the birth date itself) is tagged `isPrenatal = true`, although its
table date is NOT strictly before the birth date — the code compares the
entry's midnight timestamp against the birth instant at noon. -/
theorem marsPhases_isPrenatal_cex :
    (getMarsCycleContext marsCexTable 50).isAvailable = true ∧
    0 < ((getMarsCycleContext marsCexTable 50).phases.countP
      (fun t => t.isPrenatal && !(decide (t.day < 50)))) := by
  decide

/-- C10 (amended): whenever `getMarsCycleContext` returns an available
result, every entry of `allPhasesInCycle` carries the current cycle name;
exactly one entry is tagged `isCurrentPhase` and it is the prenatal phase
entry; and an entry is tagged `isPrenatal` exactly when its table date is
ON OR BEFORE the birth date (the entry's midnight timestamp is compared
against the birth instant at noon UTC). -/
theorem marsCyclePhases_spec (data : List MarsEvent) (day : ℤ) (pIdx : ℕ)
    (hidx : findPrenatalMarsPhaseIndex data (timeUTC day 12 0) true = some pIdx) :
    (getMarsCycleContext data day).isAvailable = true ∧
    (∀ t ∈ (getMarsCycleContext data day).phases,
      t.cycle = (getMarsCycleContext data day).cycleName) ∧
    ((getMarsCycleContext data day).phases.countP (fun t => t.isCurrentPhase)) = 1 ∧
    (∀ t ∈ (getMarsCycleContext data day).phases, t.isCurrentPhase = true →
      t.day = (getMarsCycleContext data day).prenatalDayOf ∧
      t.phase = (getMarsCycleContext data day).prenatalPhaseOf) ∧
    (∀ t ∈ (getMarsCycleContext data day).phases, t.isPrenatal = decide (t.day ≤ day)) := by
  obtain ⟨hlen, hplt, hle, hall, hmem, rest, hcons⟩ :=
    marsContext_facts data day pIdx hidx
  have hctx : getMarsCycleContext data day = MarsCtxResult.ok
      { birthDay := day
        currentCycle := (data.getD pIdx default).cycle
        prenatalDay := (data.getD pIdx default).day
        prenatalPhase := (data.getD pIdx default).phase
        prenatalCycle := (data.getD pIdx default).cycle
        prenatalDaysBeforeBirth :=
          Int.fdiv (timeUTC day 12 0 - (data.getD pIdx default).day * 86400000) 86400000
        cycleProgress := marsCycleProgress data (timeUTC day 12 0) pIdx
        daysIntoCycle := ⌊marsDaysIntoCycle data (timeUTC day 12 0) pIdx⌋
        totalCycleDays := ⌊marsTotalCycleDays data (timeUTC day 12 0) pIdx⌋
        allPhasesInCycle := marsCyclePhases data (timeUTC day 12 0) pIdx } := by
    unfold getMarsCycleContext
    rw [hidx]
  have hphases : (getMarsCycleContext data day).phases =
      marsCyclePhases data (timeUTC day 12 0) pIdx := by
    rw [hctx]
    rfl
  refine ⟨by rw [hctx]; rfl, ?_, ?_, ?_, ?_⟩
  · intro t ht
    rw [hphases, marsCyclePhases] at ht
    obtain ⟨ie, hie, hte⟩ := List.mem_map.mp ht
    obtain ⟨_, _, _, hcyc⟩ := collectLoop_mem data _ _ _ _ _ hie
    rw [← hte]
    show ie.2.cycle = (getMarsCycleContext data day).cycleName
    rw [hctx]
    exact hcyc
  · rw [hphases, marsCyclePhases, List.countP_map]
    have hfn : ((fun t : MarsPhaseTagged => t.isCurrentPhase) ∘
        (fun ie : ℕ × MarsEvent =>
          ({ day := ie.2.day, cycle := ie.2.cycle, phase := ie.2.phase,
             isPrenatal := decide (ie.2.day * 86400000 < timeUTC day 12 0),
             isCurrentPhase := decide (ie.1 = pIdx) } : MarsPhaseTagged))) =
        (fun j : ℕ => decide (j = pIdx)) ∘ Prod.fst := rfl
    rw [hfn, ← List.countP_map]
    obtain ⟨n, hn⟩ := collectLoop_map_fst data (data.getD pIdx default).cycle
      data.length (cycleStartAux data (data.getD pIdx default).cycle pIdx)
    rw [marsCyclePhasesIdx] at hmem ⊢
    rw [hn]
    have hmemrange : pIdx ∈ List.range'
        (cycleStartAux data (data.getD pIdx default).cycle pIdx) n := by
      rw [← hn]
      exact List.mem_map_of_mem Prod.fst hmem
    have hcongr : List.countP (fun j => decide (j = pIdx))
        (List.range' (cycleStartAux data (data.getD pIdx default).cycle pIdx) n) =
        List.countP (fun x => x == pIdx)
        (List.range' (cycleStartAux data (data.getD pIdx default).cycle pIdx) n) := by
      apply List.countP_congr
      intro j _
      simp
    rw [hcongr, ← List.count_eq_countP]
    exact List.count_eq_one_of_mem (List.nodup_range' _ _) hmemrange
  · intro t ht hcur
    rw [hphases, marsCyclePhases] at ht
    obtain ⟨ie, hie, hte⟩ := List.mem_map.mp ht
    obtain ⟨_, _, hgetd, _⟩ := collectLoop_mem data _ _ _ _ _ hie
    have hcur' : ie.1 = pIdx := by
      rw [← hte] at hcur
      simpa using hcur
    rw [hcur'] at hgetd
    constructor
    · rw [← hte, hctx]
      show ie.2.day = (data.getD pIdx default).day
      rw [hgetd]
    · rw [← hte, hctx]
      show ie.2.phase = (data.getD pIdx default).phase
      rw [hgetd]
  · intro t ht
    rw [hphases, marsCyclePhases] at ht
    obtain ⟨ie, hie, hte⟩ := List.mem_map.mp ht
    rw [← hte]
    show decide (ie.2.day * 86400000 < timeUTC day 12 0) = decide (ie.2.day ≤ day)
    rw [decide_eq_decide]
    rw [timeUTC]
    omega

/-- Witness for C10 (amended): the index hypothesis holds for the concrete
three-entry Mars table at birth day 60. -/
theorem marsCyclePhases_spec_witness :
    (findPrenatalMarsPhaseIndex exampleMarsTable (timeUTC 60 12 0) true = some 1) ∧
    ((getMarsCycleContext exampleMarsTable 60).isAvailable = true ∧
     (∀ t ∈ (getMarsCycleContext exampleMarsTable 60).phases,
       t.cycle = (getMarsCycleContext exampleMarsTable 60).cycleName) ∧
     ((getMarsCycleContext exampleMarsTable 60).phases.countP
       (fun t => t.isCurrentPhase)) = 1 ∧
     (∀ t ∈ (getMarsCycleContext exampleMarsTable 60).phases, t.isCurrentPhase = true →
       t.day = (getMarsCycleContext exampleMarsTable 60).prenatalDayOf ∧
       t.phase = (getMarsCycleContext exampleMarsTable 60).prenatalPhaseOf) ∧
     (∀ t ∈ (getMarsCycleContext exampleMarsTable 60).phases,
       t.isPrenatal = decide (t.day ≤ 60))) :=
  ⟨by decide, marsCyclePhases_spec exampleMarsTable 60 1 (by decide)⟩

/-! ### Venus Star (`calculateVenusStar`, `src/unnamed/part_009` 167-294) -/

/-- The `signElements` lookup table: zodiac sign → element. -/
def signElements (s : String) : Option String :=
  if s = "Aries" ∨ s = "Leo" ∨ s = "Sagittarius" then some "fire"
  else if s = "Taurus" ∨ s = "Virgo" ∨ s = "Capricorn" then some "earth"
  else if s = "Gemini" ∨ s = "Libra" ∨ s = "Aquarius" then some "air"
  else if s = "Cancer" ∨ s = "Scorpio" ∨ s = "Pisces" then some "water"
  else none

/-- The `elementCount[element]++` tally over the sign pattern. -/
def elementCountOf (signs : List String) (el : String) : ℕ :=
  signs.countP (fun s => signElements s == some el)

/-- The `Object.entries(elementCount)` in insertion order fire, earth, air, water. -/
def venusEntries (signs : List String) : List (String × ℕ) :=
  [("fire", elementCountOf signs "fire"),
   ("earth", elementCountOf signs "earth"),
   ("air", elementCountOf signs "air"),
   ("water", elementCountOf signs "water")]

/-- The `.sort((a, b) => b[1] - a[1])[0]`: JS `Array.prototype.sort` is stable,
modelled by the stable `List.mergeSort` with "a before b iff b.count ≤
a.count". -/
def dominantElementOf (signs : List String) : String × ℕ :=
  ((venusEntries signs).mergeSort (fun a b => decide (b.2 ≤ a.2))).headD ("", 0)

/-- The five-point sign pattern: right arm, left arm, star point, left leg,
right leg — each present only when the table extends far enough. -/
def venusSignPattern (data : List VspEvent) (birthTime : ℤ) (pIdx : ℕ) : List String :=
  (if 2 ≤ pIdx then [(data.getD (pIdx - 2) default).sign] else []) ++
  (if 1 ≤ pIdx then [(data.getD (pIdx - 1) default).sign] else []) ++
  [(data.getD pIdx default).sign] ++
  (match findPostnatalVSPIndex data birthTime with
   | some q =>
     (if q < data.length then [(data.getD q default).sign] else []) ++
     (if q + 1 < data.length then [(data.getD (q + 1) default).sign] else [])
   | none => [])

/-- The parts of the `calculateVenusStar` output the dominant-element claim
concerns. -/
structure VenusStar where
  birthDay : ℤ
  signPattern : List String
  dominantElement : String
  dominantCount : ℕ
  dominantTotal : ℕ
  deriving DecidableEq, Repr

/-- The `calculateVenusStar` either succeeds or returns
`{ error, available: false }`. -/
inductive VenusStarResult where
  | ok (v : VenusStar)
  | unavailable (error : String)
  deriving DecidableEq, Repr

/-- Availability flag. -/
def VenusStarResult.isAvailable : VenusStarResult → Bool
  | .ok _ => true
  | .unavailable _ => false

/-- The sign pattern of a successful result. -/
def VenusStarResult.pattern : VenusStarResult → List String
  | .ok v => v.signPattern
  | .unavailable _ => []

/-- The dominant element name of a successful result. -/
def VenusStarResult.domEl : VenusStarResult → String
  | .ok v => v.dominantElement
  | .unavailable _ => ""

/-- The dominant element count of a successful result. -/
def VenusStarResult.domCount : VenusStarResult → ℕ
  | .ok v => v.dominantCount
  | .unavailable _ => 0

/-- The `calculateVenusStar(year, month, day, hour = 12, minute = 0)`. -/
def calculateVenusStar (data : List VspEvent) (day hour minute : ℤ) : VenusStarResult :=
  match findPrenatalVSPIndex data (timeUTC day hour minute) true with
  | none => .unavailable "Birth date is before available VSP data"
  | some pIdx =>
    .ok { birthDay := day
          signPattern := venusSignPattern data (timeUTC day hour minute) pIdx
          dominantElement :=
            (dominantElementOf (venusSignPattern data (timeUTC day hour minute) pIdx)).1
          dominantCount :=
            (dominantElementOf (venusSignPattern data (timeUTC day hour minute) pIdx)).2
          dominantTotal := (venusSignPattern data (timeUTC day hour minute) pIdx).length }

/-- The maximum of the four element counts. -/
def maxElementCount (signs : List String) : ℕ :=
  max (max (elementCountOf signs "fire") (elementCountOf signs "earth"))
      (max (elementCountOf signs "air") (elementCountOf signs "water"))

/-- Modelled from the spec's words ("dominant-element tally ... tie-broken
by first-encountered order"): the first entry of the tally (in its
fire, earth, air, water order) whose count attains the maximum. -/
def specFirstDominant (signs : List String) : String × ℕ :=
  if elementCountOf signs "fire" = maxElementCount signs then
    ("fire", elementCountOf signs "fire")
  else if elementCountOf signs "earth" = maxElementCount signs then
    ("earth", elementCountOf signs "earth")
  else if elementCountOf signs "air" = maxElementCount signs then
    ("air", elementCountOf signs "air")
  else ("water", elementCountOf signs "water")

/-- Head of a stable merge sort: if `f` is maximal (w.r.t. `le`) in a
duplicate-free list and everything placed before `f` fails `le x f`, then
`f` is the head of the sorted list. -/
theorem headD_mergeSort_eq_first_max {α : Type} [DecidableEq α]
    (le : α → α → Bool)
    (htrans : ∀ a b c, le a b → le b c → le a c)
    (htotal : ∀ a b, le a b || le b a)
    (l l1 l2 : List α) (f d : α)
    (hsplit : l = l1 ++ f :: l2)
    (hnodup : l.Nodup)
    (hmax : ∀ x ∈ l, le f x = true)
    (hl1 : ∀ x ∈ l1, le x f = false) :
    (l.mergeSort le).headD d = f := by
  have hperm := List.mergeSort_perm l le
  have hnodup' : (l.mergeSort le).Nodup := hperm.nodup_iff.mpr hnodup
  have hfl : f ∈ l := by
    rw [hsplit]
    simp
  have hne : l.mergeSort le ≠ [] := by
    intro hcon
    have hmemf : f ∈ l.mergeSort le := hperm.mem_iff.mpr hfl
    rw [hcon] at hmemf
    simp at hmemf
  obtain ⟨h, t, hht⟩ := List.exists_cons_of_ne_nil hne
  have hsorted := List.sorted_mergeSort htrans htotal l
  rw [hht] at hsorted hperm hnodup'
  have hhd : (l.mergeSort le).headD d = h := by
    rw [hht]
    rfl
  rw [hhd]
  by_cases heq : h = f
  · exact heq
  exfalso
  have hhl : h ∈ l := hperm.mem_iff.mp (List.mem_cons_self h t)
  have hlefh : le f h = true := hmax h hhl
  have hfmem : f ∈ h :: t := hperm.mem_iff.mpr hfl
  have hft : f ∈ t := by
    rcases List.mem_cons.mp hfmem with hc | hc
    · exact absurd hc.symm heq
    · exact hc
  have hlehf : le h f = true := (List.pairwise_cons.mp hsorted).1 f hft
  have hh2 : h ∈ l2 := by
    have hmem := hhl
    rw [hsplit] at hmem
    rcases List.mem_append.mp hmem with hc | hc
    · rw [hl1 h hc] at hlehf
      exact Bool.noConfusion hlehf
    · rcases List.mem_cons.mp hc with hc2 | hc2
      · exact absurd hc2 heq
      · exact hc2
  have hsub : List.Sublist [f, h] l := by
    rw [hsplit]
    have hsub1 : List.Sublist [f, h] (f :: l2) :=
      List.cons_sublist_cons.mpr (List.singleton_sublist.mpr hh2)
    exact hsub1.trans (List.sublist_append_right l1 (f :: l2))
  have hpair := List.pair_sublist_mergeSort htrans htotal hlefh hsub
  rw [hht, List.cons_sublist_iff] at hpair
  obtain ⟨r1, r2, hr, hfr1, hr2⟩ := hpair
  have hhr2 : h ∈ r2 := List.singleton_sublist.mp hr2
  rcases r1 with _ | ⟨x, r1'⟩
  · simp at hfr1
  · rw [List.cons_append] at hr
    injection hr with hx ht'
    have hnotin : h ∉ t := (List.nodup_cons.mp hnodup').1
    apply hnotin
    rw [ht']
    exact List.mem_append_right _ hhr2

theorem maxElementCount_attained (signs : List String) :
    elementCountOf signs "fire" = maxElementCount signs ∨
    elementCountOf signs "earth" = maxElementCount signs ∨
    elementCountOf signs "air" = maxElementCount signs ∨
    elementCountOf signs "water" = maxElementCount signs := by
  rw [maxElementCount]
  rcases max_choice (max (elementCountOf signs "fire") (elementCountOf signs "earth"))
    (max (elementCountOf signs "air") (elementCountOf signs "water")) with h | h <;>
    rw [h]
  · rcases max_choice (elementCountOf signs "fire") (elementCountOf signs "earth")
      with h2 | h2 <;> rw [h2]
    · left; rfl
    · right; left; rfl
  · rcases max_choice (elementCountOf signs "air") (elementCountOf signs "water")
      with h2 | h2 <;> rw [h2]
    · right; right; left; rfl
    · right; right; right; rfl

/-- The code's dominant element (head of the stable descending sort of the
fire/earth/air/water tally) is exactly the spec's first-encountered mode. -/
theorem dominantElementOf_eq (signs : List String) :
    dominantElementOf signs = specFirstDominant signs := by
  have hcf : elementCountOf signs "fire" ≤ maxElementCount signs := by
    rw [maxElementCount]
    exact le_max_of_le_left (le_max_left _ _)
  have hce : elementCountOf signs "earth" ≤ maxElementCount signs := by
    rw [maxElementCount]
    exact le_max_of_le_left (le_max_right _ _)
  have hca : elementCountOf signs "air" ≤ maxElementCount signs := by
    rw [maxElementCount]
    exact le_max_of_le_right (le_max_left _ _)
  have hcw : elementCountOf signs "water" ≤ maxElementCount signs := by
    rw [maxElementCount]
    exact le_max_of_le_right (le_max_right _ _)
  have hattain := maxElementCount_attained signs
  have htrans : ∀ a b c : String × ℕ,
      decide (b.2 ≤ a.2) → decide (c.2 ≤ b.2) → decide (c.2 ≤ a.2) := by
    intro a b c h1 h2
    simp only [decide_eq_true_eq] at *
    omega
  have htotal : ∀ a b : String × ℕ, decide (b.2 ≤ a.2) || decide (a.2 ≤ b.2) := by
    intro a b
    simp only [Bool.or_eq_true, decide_eq_true_eq]
    omega
  have hnodup : (venusEntries signs).Nodup := by
    simp [venusEntries]
  have hmax : ∀ (f : String × ℕ), f.2 = maxElementCount signs →
      ∀ x ∈ venusEntries signs, decide (x.2 ≤ f.2) = true := by
    intro f hf x hx
    simp only [decide_eq_true_eq, hf]
    rcases List.mem_cons.mp hx with rfl | hx
    · exact hcf
    rcases List.mem_cons.mp hx with rfl | hx
    · exact hce
    rcases List.mem_cons.mp hx with rfl | hx
    · exact hca
    rcases List.mem_cons.mp hx with rfl | hx
    · exact hcw
    · simp at hx
  rw [dominantElementOf, specFirstDominant]
  by_cases h1 : elementCountOf signs "fire" = maxElementCount signs
  · rw [if_pos h1]
    apply headD_mergeSort_eq_first_max _ htrans htotal _ []
      [("earth", elementCountOf signs "earth"), ("air", elementCountOf signs "air"),
       ("water", elementCountOf signs "water")] _ _ rfl hnodup
      (hmax _ h1) (by intro x hx; simp at hx)
  · rw [if_neg h1]
    by_cases h2 : elementCountOf signs "earth" = maxElementCount signs
    · rw [if_pos h2]
      apply headD_mergeSort_eq_first_max _ htrans htotal _
        [("fire", elementCountOf signs "fire")]
        [("air", elementCountOf signs "air"), ("water", elementCountOf signs "water")]
        _ _ rfl hnodup (hmax _ h2) ?_
      intro x hx
      rcases List.mem_cons.mp hx with rfl | hx
      · simp only [decide_eq_false_iff_not, not_le, h2]
        omega
      · simp at hx
    · rw [if_neg h2]
      by_cases h3 : elementCountOf signs "air" = maxElementCount signs
      · rw [if_pos h3]
        apply headD_mergeSort_eq_first_max _ htrans htotal _
          [("fire", elementCountOf signs "fire"), ("earth", elementCountOf signs "earth")]
          [("water", elementCountOf signs "water")]
          _ _ rfl hnodup (hmax _ h3) ?_
        intro x hx
        rcases List.mem_cons.mp hx with rfl | hx
        · simp only [decide_eq_false_iff_not, not_le, h3]
          omega
        rcases List.mem_cons.mp hx with rfl | hx
        · simp only [decide_eq_false_iff_not, not_le, h3]
          omega
        · simp at hx
      · rw [if_neg h3]
        have h4 : elementCountOf signs "water" = maxElementCount signs := by
          rcases hattain with h | h | h | h
          · exact absurd h h1
          · exact absurd h h2
          · exact absurd h h3
          · exact h
        apply headD_mergeSort_eq_first_max _ htrans htotal _
          [("fire", elementCountOf signs "fire"), ("earth", elementCountOf signs "earth"),
           ("air", elementCountOf signs "air")] []
          _ _ rfl hnodup (hmax _ h4) ?_
        intro x hx
        rcases List.mem_cons.mp hx with rfl | hx
        · simp only [decide_eq_false_iff_not, not_le, h4]
          omega
        rcases List.mem_cons.mp hx with rfl | hx
        · simp only [decide_eq_false_iff_not, not_le, h4]
          omega
        rcases List.mem_cons.mp hx with rfl | hx
        · simp only [decide_eq_false_iff_not, not_le, h4]
          omega
        · simp at hx

theorem specFirstDominant_snd (signs : List String) :
    (specFirstDominant signs).2 = maxElementCount signs := by
  rw [specFirstDominant]
  by_cases h1 : elementCountOf signs "fire" = maxElementCount signs
  · rw [if_pos h1]
    exact h1
  rw [if_neg h1]
  by_cases h2 : elementCountOf signs "earth" = maxElementCount signs
  · rw [if_pos h2]
    exact h2
  rw [if_neg h2]
  by_cases h3 : elementCountOf signs "air" = maxElementCount signs
  · rw [if_pos h3]
    exact h3
  rw [if_neg h3]
  rcases maxElementCount_attained signs with h | h | h | h
  · exact absurd h h1
  · exact absurd h h2
  · exact absurd h h3
  · exact h

theorem maxElementCount_le_length (signs : List String) :
    maxElementCount signs ≤ signs.length := by
  rw [maxElementCount]
  have h : ∀ el, elementCountOf signs el ≤ signs.length := by
    intro el
    rw [elementCountOf]
    exact List.countP_le_length _
  exact max_le (max_le (h _) (h _)) (max_le (h _) (h _))

/-- C6: for every available Venus Star result, the dominant element count
is the true maximum of the fire/earth/air/water histogram over the sign
pattern, never exceeds the pattern's length, and the (element, count) pair
equals the spec's first-encountered mode (ties broken toward the earlier
entry of the fire, earth, air, water tally). -/
theorem venusStar_dominant_spec (data : List VspEvent) (day hour minute : ℤ)
    (pIdx : ℕ)
    (hidx : findPrenatalVSPIndex data (timeUTC day hour minute) true = some pIdx) :
    (calculateVenusStar data day hour minute).isAvailable = true ∧
    (calculateVenusStar data day hour minute).domCount =
      maxElementCount (calculateVenusStar data day hour minute).pattern ∧
    (calculateVenusStar data day hour minute).domCount ≤
      (calculateVenusStar data day hour minute).pattern.length ∧
    ((calculateVenusStar data day hour minute).domEl,
     (calculateVenusStar data day hour minute).domCount) =
      specFirstDominant (calculateVenusStar data day hour minute).pattern := by
  have hres : calculateVenusStar data day hour minute = VenusStarResult.ok
      { birthDay := day
        signPattern := venusSignPattern data (timeUTC day hour minute) pIdx
        dominantElement :=
          (dominantElementOf (venusSignPattern data (timeUTC day hour minute) pIdx)).1
        dominantCount :=
          (dominantElementOf (venusSignPattern data (timeUTC day hour minute) pIdx)).2
        dominantTotal := (venusSignPattern data (timeUTC day hour minute) pIdx).length } := by
    unfold calculateVenusStar
    rw [hidx]
  have hpat : (calculateVenusStar data day hour minute).pattern =
      venusSignPattern data (timeUTC day hour minute) pIdx := by
    rw [hres]
    rfl
  have hel : (calculateVenusStar data day hour minute).domEl =
      (dominantElementOf (venusSignPattern data (timeUTC day hour minute) pIdx)).1 := by
    rw [hres]
    rfl
  have hct : (calculateVenusStar data day hour minute).domCount =
      (dominantElementOf (venusSignPattern data (timeUTC day hour minute) pIdx)).2 := by
    rw [hres]
    rfl
  have hpair : ((calculateVenusStar data day hour minute).domEl,
      (calculateVenusStar data day hour minute).domCount) =
      specFirstDominant (calculateVenusStar data day hour minute).pattern := by
    rw [hel, hct, hpat, ← dominantElementOf_eq]
  refine ⟨by rw [hres]; rfl, ?_, ?_, hpair⟩
  · have h2 := congrArg Prod.snd hpair
    simp only [] at h2
    rw [h2, specFirstDominant_snd]
  · have h2 := congrArg Prod.snd hpair
    simp only [] at h2
    rw [h2, specFirstDominant_snd]
    exact maxElementCount_le_length _

/-- A five-entry VSP table spanning the example birth (day 250). -/
def exampleVenusTable : List VspEvent :=
  [⟨0, 1, "Morning Star", "Aries"⟩, ⟨100, 2, "Evening Star", "Leo"⟩,
   ⟨200, 3, "Morning Star", "Cancer"⟩, ⟨300, 4, "Evening Star", "Libra"⟩,
   ⟨400, 5, "Morning Star", "Capricorn"⟩]

/-- Witness for C6: the prenatal index resolves (to 2) for the concrete
five-entry table at birth day 250. -/
theorem venusStar_dominant_spec_witness :
    (findPrenatalVSPIndex exampleVenusTable (timeUTC 250 12 0) true = some 2) ∧
    ((calculateVenusStar exampleVenusTable 250 12 0).isAvailable = true ∧
     (calculateVenusStar exampleVenusTable 250 12 0).domCount =
       maxElementCount (calculateVenusStar exampleVenusTable 250 12 0).pattern ∧
     (calculateVenusStar exampleVenusTable 250 12 0).domCount ≤
       (calculateVenusStar exampleVenusTable 250 12 0).pattern.length ∧
     ((calculateVenusStar exampleVenusTable 250 12 0).domEl,
      (calculateVenusStar exampleVenusTable 250 12 0).domCount) =
       specFirstDominant (calculateVenusStar exampleVenusTable 250 12 0).pattern) :=
  ⟨by decide, venusStar_dominant_spec exampleVenusTable 250 12 0 2 (by decide)⟩

/-! ## Prenatal eclipse search (`src/api/services/ikigai.js` 595-801)

The Swiss Ephemeris provider is modelled as an oracle: `solSearch` /
`lunSearch` return the provider's backward eclipse search result (`none`
covers both a thrown exception and a falsy result), `calc` returns a body's
ecliptic longitude (`data[0]`), and `revjul` converts a Julian Day to a
calendar date. -/

/-- Swiss Ephemeris body ids used by the search. -/
def SE_SUN : ℕ := 0

def SE_MOON : ℕ := 1

def SE_TRUE_NODE : ℕ := 11

/-- An eclipse-search result: `tret[0]` and `attr[0]`. -/
structure SweSearchResult where
  tret0 : ℚ
  attr0 : ℚ
  deriving Repr

/-- A `revjul` calendar date. -/
structure SweDate where
  year : ℤ
  month : ℤ
  day : ℚ
  deriving Repr

/-- The ephemeris provider oracle. -/
structure EphemerisProvider where
  solSearch : ℚ → Option SweSearchResult
  lunSearch : ℚ → Option SweSearchResult
  calcLng : ℚ → ℕ → Option ℚ
  revjul : ℚ → SweDate

/-- The `normalizeAngle(angle)`: the two `while` loops bringing an angle into
`[0, 360)` by repeatedly adding or subtracting 360 (a raise from below 0
always lands below 360, so the sequential loops equal this recursion). -/
def normalizeAngle (angle : ℚ) : ℚ :=
  if h1 : angle < 0 then normalizeAngle (angle + 360)
  else if h2 : 360 ≤ angle then normalizeAngle (angle - 360)
  else angle
termination_by (⌊angle / 360⌋).natAbs
decreasing_by
  · have hdiv : (angle + 360) / 360 = angle / 360 + 1 := by ring
    rw [hdiv, Int.floor_add_one]
    have hneg : ⌊angle / 360⌋ < 0 :=
      Int.floor_lt.mpr (by exact_mod_cast div_neg_of_neg_of_pos h1 (by norm_num))
    omega
  · have hdiv : (angle - 360) / 360 = angle / 360 - 1 := by ring
    rw [hdiv, Int.floor_sub_one]
    have hpos : 0 < ⌊angle / 360⌋ := by
      have : (1 : ℚ) ≤ angle / 360 := by
        rw [le_div_iff (by norm_num : (0:ℚ) < 360)]
        linarith
      have := Int.le_floor.mpr (by exact_mod_cast this : ((1:ℤ) : ℚ) ≤ angle / 360)
      omega
    omega

/-- The eclipse record assembled by the search (dates via `revjul`,
position via `calc`, sign via this file's `getZodiacSignIkigai`). -/
structure Eclipse where
  type : String
  year : ℤ
  month : ℤ
  dayOfMonth : ℚ
  julianDay : ℚ
  daysBeforeBirth : ℤ
  longitude : ℚ
  sign : Option String
  degree : ℚ
  deriving Repr

/-- An eclipse search either finds an eclipse or reports an unavailable
result — never an exception. -/
inductive EclipseResult where
  | found (e : Eclipse)
  | unavailable (error : String)
  deriving Repr

/-- Build the solar-eclipse record for a qualifying provider result. -/
def buildSolarEclipse (P : EphemerisProvider) (birthJd : ℚ)
    (res : SweSearchResult) : Eclipse :=
  { type :=
      if res.attr0 > 99/100 then "Total Solar Eclipse"
      else if res.attr0 > 9/10 then "Annular Solar Eclipse"
      else "Partial Solar Eclipse"
    year := (P.revjul res.tret0).year
    month := (P.revjul res.tret0).month
    dayOfMonth := (P.revjul res.tret0).day
    julianDay := res.tret0
    daysBeforeBirth := ⌊birthJd - res.tret0⌋
    longitude := (P.calcLng res.tret0 SE_SUN).getD 0
    sign := getZodiacSignIkigai ((P.calcLng res.tret0 SE_SUN).getD 0)
    degree := jsMod ((P.calcLng res.tret0 SE_SUN).getD 0) 30 }

/-- Build the lunar-eclipse record for a qualifying provider result. -/
def buildLunarEclipse (P : EphemerisProvider) (birthJd : ℚ)
    (res : SweSearchResult) : Eclipse :=
  { type :=
      if res.attr0 > 1 then "Total Lunar Eclipse"
      else if res.attr0 > 0 then "Partial Lunar Eclipse"
      else "Penumbral Lunar Eclipse"
    year := (P.revjul res.tret0).year
    month := (P.revjul res.tret0).month
    dayOfMonth := (P.revjul res.tret0).day
    julianDay := res.tret0
    daysBeforeBirth := ⌊birthJd - res.tret0⌋
    longitude := (P.calcLng res.tret0 SE_MOON).getD 0
    sign := getZodiacSignIkigai ((P.calcLng res.tret0 SE_MOON).getD 0)
    degree := jsMod ((P.calcLng res.tret0 SE_MOON).getD 0) 30 }

/-- The `while (!eclipse && searchAttempts < maxAttempts)` provider loop:
on a qualifying result (`tret[0] < birthJd`) stop; otherwise (no result,
thrown exception, or non-qualifying result) step six months (180 days)
back and retry, up to `fuel` attempts (the source uses 10). -/
def eclipseSearchLoop (search : ℚ → Option SweSearchResult)
    (build : SweSearchResult → Eclipse) (birthJd : ℚ) :
    ℕ → ℚ → Option Eclipse
  | 0, _ => none
  | fuel + 1, searchJd =>
    match search searchJd with
    | some res =>
      if res.tret0 < birthJd then some (build res)
      else eclipseSearchLoop search build birthJd fuel (searchJd - 180)
    | none => eclipseSearchLoop search build birthJd fuel (searchJd - 180)

/-- The near-alignment test of the fallback scan at `searchJd`. -/
def approxHit (P : EphemerisProvider) (searchJd : ℚ) (solar : Bool) : Bool :=
  if solar then
    decide (|normalizeAngle ((P.calcLng searchJd SE_SUN).getD 0
        - (P.calcLng searchJd SE_MOON).getD 0)| < 5 ∧
      min |normalizeAngle ((P.calcLng searchJd SE_SUN).getD 0
          - (P.calcLng searchJd SE_TRUE_NODE).getD 0)|
        |normalizeAngle ((P.calcLng searchJd SE_SUN).getD 0
          - ((P.calcLng searchJd SE_TRUE_NODE).getD 0 + 180))| < 18)
  else
    decide (abs (|normalizeAngle ((P.calcLng searchJd SE_SUN).getD 0
        - (P.calcLng searchJd SE_MOON).getD 0)| - 180) < 5 ∧
      min |normalizeAngle ((P.calcLng searchJd SE_SUN).getD 0
          - (P.calcLng searchJd SE_TRUE_NODE).getD 0)|
        |normalizeAngle ((P.calcLng searchJd SE_SUN).getD 0
          - ((P.calcLng searchJd SE_TRUE_NODE).getD 0 + 180))| < 18)

/-- The approximate-eclipse record produced by the fallback scan. -/
def buildApproxEclipse (P : EphemerisProvider) (searchJd : ℚ) (solar : Bool)
    (d : ℕ) : Eclipse :=
  { type := if solar then "Solar Eclipse (approximate)" else "Lunar Eclipse (approximate)"
    year := (P.revjul searchJd).year
    month := (P.revjul searchJd).month
    dayOfMonth := (P.revjul searchJd).day
    julianDay := searchJd
    daysBeforeBirth := (d : ℤ)
    longitude := (P.calcLng searchJd (if solar then SE_SUN else SE_MOON)).getD 0
    sign := getZodiacSignIkigai ((P.calcLng searchJd (if solar then SE_SUN else SE_MOON)).getD 0)
    degree := jsMod ((P.calcLng searchJd (if solar then SE_SUN else SE_MOON)).getD 0) 30 }

/-- The `while (birthJd - searchJd < maxDays)` day-by-day backward scan,
indexed by `d = birthJd - searchJd` (starting at 1, bounded by 400). -/
def approxScanLoop (P : EphemerisProvider) (birthJd : ℚ) (solar : Bool)
    (d : ℕ) : Option Eclipse :=
  if d < 400 then
    if approxHit P (birthJd - d) solar then
      some (buildApproxEclipse P (birthJd - d) solar d)
    else approxScanLoop P birthJd solar (d + 1)
  else none
termination_by 400 - d
decreasing_by omega

/-- The `findApproximatePrenatalEclipse(birthJd, type)`: scan starts one day
before birth. -/
def findApproximatePrenatalEclipse (P : EphemerisProvider) (birthJd : ℚ)
    (solar : Bool) : Option Eclipse :=
  approxScanLoop P birthJd solar 1

/-- The `findPrenatalSolarEclipse(birthJd, ...)`: up to 10 provider attempts
stepping 180 days back, then the bounded fallback scan, then an
unavailable result. -/
def findPrenatalSolarEclipse (P : EphemerisProvider) (birthJd : ℚ) : EclipseResult :=
  match eclipseSearchLoop P.solSearch (buildSolarEclipse P birthJd) birthJd 10 birthJd with
  | some e => .found e
  | none =>
    match findApproximatePrenatalEclipse P birthJd true with
    | some e => .found e
    | none => .unavailable "Could not find prenatal solar eclipse"

/-- The `findPrenatalLunarEclipse(birthJd)`: same structure over the lunar
search. -/
def findPrenatalLunarEclipse (P : EphemerisProvider) (birthJd : ℚ) : EclipseResult :=
  match eclipseSearchLoop P.lunSearch (buildLunarEclipse P birthJd) birthJd 10 birthJd with
  | some e => .found e
  | none =>
    match findApproximatePrenatalEclipse P birthJd false with
    | some e => .found e
    | none => .unavailable "Could not find prenatal lunar eclipse"

theorem eclipseSearchLoop_none (search : ℚ → Option SweSearchResult)
    (build : SweSearchResult → Eclipse) (birthJd : ℚ) :
    ∀ (fuel : ℕ) (start : ℚ),
      (∀ (k : ℕ), k < fuel → ∀ res, search (start - 180 * k) = some res →
        ¬(res.tret0 < birthJd)) →
      eclipseSearchLoop search build birthJd fuel start = none := by
  intro fuel
  induction fuel with
  | zero => intro start _; rfl
  | succ fuel ih =>
    intro start hmiss
    unfold eclipseSearchLoop
    rcases hs : search start with _ | res
    · show eclipseSearchLoop search build birthJd fuel (start - 180) = none
      apply ih
      intro k hk res hres
      apply hmiss (k + 1) (by omega) res
      rw [← hres]
      congr 1
      push_cast
      ring
    · have h0 := hmiss 0 (by omega) res (by simpa using hs)
      show (if res.tret0 < birthJd then some (build res)
        else eclipseSearchLoop search build birthJd fuel (start - 180)) = none
      rw [if_neg h0]
      apply ih
      intro k hk res' hres'
      apply hmiss (k + 1) (by omega) res'
      rw [← hres']
      congr 1
      push_cast
      ring

theorem approxScanLoop_none (P : EphemerisProvider) (birthJd : ℚ) (solar : Bool) :
    ∀ (n d : ℕ), 400 - d ≤ n →
      (∀ d' : ℕ, d ≤ d' → d' < 400 → approxHit P (birthJd - d') solar = false) →
      approxScanLoop P birthJd solar d = none := by
  intro n
  induction n with
  | zero =>
    intro d hle _
    unfold approxScanLoop
    rw [if_neg (by omega)]
  | succ n ih =>
    intro d hle hmiss
    unfold approxScanLoop
    by_cases hd : d < 400
    · rw [if_pos hd, hmiss d (le_refl _) hd, if_neg (by simp)]
      exact ih (d + 1) (by omega) (fun d' h1 h2 => hmiss d' (by omega) h2)
    · rw [if_neg hd]

/-- C8: the prenatal eclipse searches try the provider's exact backward
search at most 10 times, stepping 180 days further back after each failed
or non-qualifying attempt; when those attempts are exhausted they fall back
to a day-by-day backward scan bounded to under 400 days; and when both
budgets find nothing they return an explicit unavailable result — a value,
never an exception. -/
theorem prenatalEclipse_budget (P : EphemerisProvider) (birthJd : ℚ)
    (hsol : ∀ (k : ℕ), k < 10 → ∀ res, P.solSearch (birthJd - 180 * k) = some res →
      ¬(res.tret0 < birthJd))
    (hlun : ∀ (k : ℕ), k < 10 → ∀ res, P.lunSearch (birthJd - 180 * k) = some res →
      ¬(res.tret0 < birthJd))
    (happrox : ∀ (d : ℕ), 1 ≤ d → d < 400 →
      approxHit P (birthJd - d) true = false ∧ approxHit P (birthJd - d) false = false) :
    findPrenatalSolarEclipse P birthJd =
      EclipseResult.unavailable "Could not find prenatal solar eclipse" ∧
    findPrenatalLunarEclipse P birthJd =
      EclipseResult.unavailable "Could not find prenatal lunar eclipse" := by
  have hloop1 : eclipseSearchLoop P.solSearch (buildSolarEclipse P birthJd)
      birthJd 10 birthJd = none := by
    apply eclipseSearchLoop_none
    intro k hk res hres
    exact hsol k hk res hres
  have hloop2 : eclipseSearchLoop P.lunSearch (buildLunarEclipse P birthJd)
      birthJd 10 birthJd = none := by
    apply eclipseSearchLoop_none
    intro k hk res hres
    exact hlun k hk res hres
  have happ1 : findApproximatePrenatalEclipse P birthJd true = none := by
    apply approxScanLoop_none P birthJd true 400 1 (by omega)
    intro d' h1 h2
    exact (happrox d' h1 h2).1
  have happ2 : findApproximatePrenatalEclipse P birthJd false = none := by
    apply approxScanLoop_none P birthJd false 400 1 (by omega)
    intro d' h1 h2
    exact (happrox d' h1 h2).2
  constructor
  · rw [findPrenatalSolarEclipse, hloop1, happ1]
  · rw [findPrenatalLunarEclipse, hloop2, happ2]

/-- A provider whose eclipse searches always fail and whose geometry never
resembles an eclipse (Sun 0°, Moon 90°, node 0°). -/
def silentProvider : EphemerisProvider :=
  { solSearch := fun _ => none
    lunSearch := fun _ => none
    calcLng := fun _ b => some (if b = SE_MOON then 90 else 0)
    revjul := fun _ => ⟨0, 0, 0⟩ }

theorem normalizeAngle_neg90 : normalizeAngle ((0:ℚ) - 90) = 270 := by
  have e0 : (0:ℚ) - 90 = -90 := by norm_num
  have e1 : (-90:ℚ) + 360 = 270 := by norm_num
  rw [e0, normalizeAngle, dif_pos (by norm_num : (-90:ℚ) < 0), e1,
      normalizeAngle, dif_neg (by norm_num), dif_neg (by norm_num)]

theorem silentProvider_no_hit (x : ℚ) :
    approxHit silentProvider x true = false ∧ approxHit silentProvider x false = false := by
  have hsun : (silentProvider.calcLng x SE_SUN).getD 0 = 0 := rfl
  have hmoon : (silentProvider.calcLng x SE_MOON).getD 0 = 90 := rfl
  constructor
  · unfold approxHit
    rw [if_pos rfl, decide_eq_false_iff_not]
    intro hcon
    obtain ⟨hA, _⟩ := hcon
    rw [hsun, hmoon, normalizeAngle_neg90] at hA
    norm_num at hA
  · unfold approxHit
    rw [if_neg (by simp), decide_eq_false_iff_not]
    intro hcon
    obtain ⟨hA, _⟩ := hcon
    rw [hsun, hmoon, normalizeAngle_neg90] at hA
    norm_num at hA

/-- Witness for C8: every hypothesis holds for the silent provider, so both
searches exhaust their budgets and return unavailable results. -/
theorem prenatalEclipse_budget_witness :
    (∀ (k : ℕ), k < 10 → ∀ res, silentProvider.solSearch ((1000:ℚ) - 180 * k) = some res →
      ¬(res.tret0 < 1000)) ∧
    (findPrenatalSolarEclipse silentProvider 1000 =
      EclipseResult.unavailable "Could not find prenatal solar eclipse" ∧
     findPrenatalLunarEclipse silentProvider 1000 =
      EclipseResult.unavailable "Could not find prenatal lunar eclipse") :=
  ⟨fun _ _ res h => absurd h (by simp [silentProvider]),
   prenatalEclipse_budget silentProvider 1000
     (fun _ _ res h => absurd h (by simp [silentProvider]))
     (fun _ _ res h => absurd h (by simp [silentProvider]))
     (fun d _ _ => silentProvider_no_hit ((1000:ℚ) - d))⟩

end Sweph
